import Mathlib

/-
  Verification of the RepoGate VS Code extension's dependency lifecycle
  tracking core against its natural-language specification.

  The embedding translates the TypeScript sources:
    - src/api/client.ts            (RepoGateApiClient, retryRequest)
    - src/services/DependencyValidator.ts (DependencyValidator, BootstrapService)
    - src/watchers/gradleWatcher.ts (GradleWatcher state machine)
    - src/parsers/NpmDependencyParser.ts + parsers/DependencyParser.ts
    - src/ui/diagnostics/diagnosticsProvider.ts
    - src/ui/notifications/notificationManager.ts
    - src/utils/logger.ts          (Logger.sanitize)
    - src/extension.ts             (activate bootstrap guard)

  JavaScript Maps keyed by strings are modelled as association lists
  (first binding wins on lookup, `set` replaces in place); exceptions are
  modelled as Option/Except results; setInterval handles are modelled as
  (key, id) pairs in a multiset of live timers so that timer leaks and
  duplicate timers are expressible.
-/

namespace RepoGate

/-! ### Shared data model (src/models/DependencyInfo.ts) -/

/-- `ApprovalStatus` enum from src/models/DependencyInfo.ts. -/
inductive ApprovalStatus where
  | pending
  | approved
  | denied
  | scanning
  | not_found
  | error
deriving DecidableEq, Repr

/-- The `status` field of a wire response
(`'approved' | 'denied' | 'pending' | 'scanning' | 'not_found'`),
from the `CheckResponse` / `DependencyResponse` interfaces. -/
inductive RespStatus where
  | approved
  | denied
  | pending
  | scanning
  | not_found
deriving DecidableEq, Repr

/-- The assignment `dep.status = response.status as any`. -/
def RespStatus.toApproval : RespStatus → ApprovalStatus
  | .approved => .approved
  | .denied => .denied
  | .pending => .pending
  | .scanning => .scanning
  | .not_found => .not_found

/-- `response.status !== 'approved' && response.status !== 'denied'`
(the non-terminal test used by GradleWatcher.handleNewDependency). -/
def RespStatus.nonTerminal : RespStatus → Bool
  | .approved => false
  | .denied => false
  | _ => true

/-- A status is one of the three non-terminal polling statuses. -/
def ApprovalStatus.isPolling : ApprovalStatus → Bool
  | .pending => true
  | .scanning => true
  | .not_found => true
  | _ => false

/-! ### Association-list operations standing in for JS `Map` -/

/-- `map.get(k)` on a JS Map modelled as an association list. -/
def alistGet {α : Type} (l : List (String × α)) (k : String) : Option α :=
  match l.find? (fun p => p.1 == k) with
  | some p => some p.2
  | none => none

/-- `map.set(k, v)`: replace the existing binding in place, else append. -/
def alistSet {α : Type} (l : List (String × α)) (k : String) (v : α) :
    List (String × α) :=
  match l with
  | [] => [(k, v)]
  | (k', v') :: t =>
      if k' == k then (k, v) :: t else (k', v') :: alistSet t k v

/-- `map.delete(k)`: remove the binding for `k` (first occurrence). -/
def alistDel {α : Type} (l : List (String × α)) (k : String) :
    List (String × α) :=
  match l with
  | [] => []
  | (k', v') :: t =>
      if k' == k then t else (k', v') :: alistDel t k

/-! ### RepoGateApiClient.retryRequest (src/api/client.ts)

The axios call either succeeds with a value, fails with an HTTP status
(4xx/5xx, `axiosError.response` present), or fails at network level
(no `response`).  `Math.random() * 1000` is modelled as a jitter function
`Nat → Nat` whose values are below 1000 (one value per attempt index). -/

/-- Outcome of one invocation of the wrapped axios request. -/
inductive Outcome (T : Type) where
  | ok (t : T)
  | httpErr (status : Nat)
  | netErr
deriving DecidableEq, Repr

/-- `private maxRetries = 3`. -/
def maxRetries : Nat := 3

/-- `private baseDelay = 1000`. -/
def baseDelay : Nat := 1000

/-- `axiosError.response && status >= 400 && status < 500`:
the branch that refuses to retry. -/
def Outcome.is4xx {T : Type} : Outcome T → Bool
  | .httpErr s => 400 ≤ s && s < 500
  | _ => false

/-- Result of running `retryRequest` to completion: the final result,
the number of invocations of `fn`, and the sleep performed before each
retry invocation, in order. -/
structure RetryTrace (T : Type) where
  result : Except (Outcome T) T
  calls : Nat
  delays : List Nat
deriving Repr

/-- `retryRequest(fn, attempt)` (src/api/client.ts lines 152-178):
try `fn`; rethrow a 4xx immediately; otherwise retry after
`baseDelay * 2^attempt + jitter` while `attempt < maxRetries`. -/
def retryAux {T : Type} (fn : Nat → Outcome T) (jitter : Nat → Nat)
    (attempt : Nat) : RetryTrace T :=
  match fn attempt with
  | .ok t => ⟨.ok t, 1, []⟩
  | .httpErr s =>
      if 400 ≤ s ∧ s < 500 then ⟨.error (.httpErr s), 1, []⟩
      else if h : attempt < maxRetries then
        let rest := retryAux fn jitter (attempt + 1)
        ⟨rest.result, rest.calls + 1,
          (baseDelay * 2 ^ attempt + jitter attempt) :: rest.delays⟩
      else ⟨.error (.httpErr s), 1, []⟩
  | .netErr =>
      if h : attempt < maxRetries then
        let rest := retryAux fn jitter (attempt + 1)
        ⟨rest.result, rest.calls + 1,
          (baseDelay * 2 ^ attempt + jitter attempt) :: rest.delays⟩
      else ⟨.error .netErr, 1, []⟩
termination_by maxRetries - attempt

/-- Public entry: `retryRequest(fn)` starts at `attempt = 0`. -/
def retryRequest {T : Type} (fn : Nat → Outcome T) (jitter : Nat → Nat) :
    RetryTrace T :=
  retryAux fn jitter 0

theorem retryAux_calls_pos {T : Type} (fn : Nat → Outcome T)
    (jitter : Nat → Nat) (a : Nat) : 1 ≤ (retryAux fn jitter a).calls := by
  rw [retryAux]
  cases hfa : fn a with
  | ok t => simp
  | httpErr s =>
      by_cases h4 : 400 ≤ s ∧ s < 500
      · simp [h4]
      · by_cases hlt : a < maxRetries <;> simp [h4, hlt]
  | netErr =>
      by_cases hlt : a < maxRetries <;> simp [hlt]

theorem retryAux_calls_le {T : Type} (fn : Nat → Outcome T)
    (jitter : Nat → Nat) (a : Nat) (ha : a ≤ maxRetries) :
    (retryAux fn jitter a).calls ≤ maxRetries + 1 - a := by
  rw [retryAux]
  cases hfa : fn a with
  | ok t => simp; omega
  | httpErr s =>
      by_cases h4 : 400 ≤ s ∧ s < 500
      · simp [h4]; omega
      · by_cases hlt : a < maxRetries
        · have ih := retryAux_calls_le fn jitter (a + 1) (by omega)
          simp [h4, hlt]
          omega
        · simp [h4, hlt]; omega
  | netErr =>
      by_cases hlt : a < maxRetries
      · have ih := retryAux_calls_le fn jitter (a + 1) (by omega)
        simp [hlt]
        omega
      · simp [hlt]; omega
termination_by maxRetries - a

theorem retryAux_delays_spec {T : Type} (fn : Nat → Outcome T)
    (jitter : Nat → Nat) (a : Nat) :
    (retryAux fn jitter a).delays =
      (List.range' a ((retryAux fn jitter a).calls - 1)).map
        (fun n => baseDelay * 2 ^ n + jitter n) := by
  rw [retryAux]
  cases hfa : fn a with
  | ok t => simp
  | httpErr s =>
      by_cases h4 : 400 ≤ s ∧ s < 500
      · simp [h4]
      · by_cases hlt : a < maxRetries
        · have ih := retryAux_delays_spec fn jitter (a + 1)
          have hpos := retryAux_calls_pos fn jitter (a + 1)
          simp only [h4, hlt, if_true, if_false, dif_pos, if_neg]
          simp only [Nat.add_sub_cancel]
          obtain ⟨c, hc⟩ : ∃ c, (retryAux fn jitter (a + 1)).calls = c + 1 :=
            ⟨(retryAux fn jitter (a + 1)).calls - 1, by omega⟩
          rw [ih, hc]
          simp [List.range'_succ]
        · simp [h4, hlt]
  | netErr =>
      by_cases hlt : a < maxRetries
      · have ih := retryAux_delays_spec fn jitter (a + 1)
        have hpos := retryAux_calls_pos fn jitter (a + 1)
        simp only [hlt, dif_pos]
        simp only [Nat.add_sub_cancel]
        obtain ⟨c, hc⟩ : ∃ c, (retryAux fn jitter (a + 1)).calls = c + 1 :=
          ⟨(retryAux fn jitter (a + 1)).calls - 1, by omega⟩
        rw [ih, hc]
        simp [List.range'_succ]
      · simp [hlt]
termination_by maxRetries - a

theorem retryAux_4xx {T : Type} (fn : Nat → Outcome T) (jitter : Nat → Nat)
    (a s : Nat) (h4a : 400 ≤ s) (h4b : s < 500) (hfa : fn a = .httpErr s) :
    retryAux fn jitter a = ⟨.error (.httpErr s), 1, []⟩ := by
  rw [retryAux, hfa]
  simp [h4a, h4b]

/-- C4: through the retrying client, a 4xx response is rethrown immediately
with no retry (at attempt 0 and at every reached attempt); at most
`maxRetries` (= 3) retries follow the first call; and the sleep before
retry number `n` (0-based) is `baseDelay * 2 ^ n + jitter n` with the
jitter below 1000 ms. -/
theorem retryRequest_policy {T : Type} (fn : Nat → Outcome T)
    (jitter : Nat → Nat) (hj : ∀ n, jitter n < 1000) :
    (∀ s, 400 ≤ s → s < 500 → fn 0 = .httpErr s →
        retryRequest fn jitter = ⟨.error (.httpErr s), 1, []⟩) ∧
    (∀ a s, 400 ≤ s → s < 500 → fn a = .httpErr s →
        retryAux fn jitter a = ⟨.error (.httpErr s), 1, []⟩) ∧
    (retryRequest fn jitter).calls ≤ 1 + maxRetries ∧
    (retryRequest fn jitter).delays =
      (List.range ((retryRequest fn jitter).calls - 1)).map
        (fun n => baseDelay * 2 ^ n + jitter n) ∧
    (∀ d ∈ (retryRequest fn jitter).delays,
        ∃ n, d = baseDelay * 2 ^ n + jitter n ∧ jitter n < 1000) := by
  refine ⟨fun s h1 h2 h3 => retryAux_4xx fn jitter 0 s h1 h2 h3,
    fun a s h1 h2 h3 => retryAux_4xx fn jitter a s h1 h2 h3, ?_, ?_, ?_⟩
  · have := retryAux_calls_le fn jitter 0 (by omega)
    rw [retryRequest]
    omega
  · have := retryAux_delays_spec fn jitter 0
    simpa [retryRequest, List.range_eq_range'] using this
  · intro d hd
    have hspec := retryAux_delays_spec fn jitter 0
    rw [retryRequest] at hd
    rw [hspec] at hd
    simp only [List.mem_map, List.mem_range'] at hd
    obtain ⟨n, _, hn⟩ := hd
    exact ⟨n, hn.symm, hj n⟩

/-- Witness for `retryRequest_policy`: an always-failing network call with
zero jitter makes at most 4 calls. -/
theorem retryRequest_policy_witness :
    (retryRequest (fun _ => (Outcome.netErr : Outcome Nat)) (fun _ => 0)).calls
      ≤ 1 + maxRetries :=
  (retryRequest_policy (fun _ => (Outcome.netErr : Outcome Nat))
    (fun _ => 0) (fun n => by norm_num)).2.2.1

/-! ### DependencyValidator connection-retry mode
(src/services/DependencyValidator.ts lines 16-100 and 198-250)

`retryConnection` installs a `setInterval` with a fixed 10 s period.  Each
tick increments `retryCount`; once `retryCount > maxRetries` (30) the tick
stops the interval and emits one "could not connect" warning; otherwise it
calls `client.requestDependency`, and on success stops the interval and
hands the response to `handleDependencyResponse`.  The network is modelled
as a function from the tick's `retryCount` value to an optional response
(`none` = the request threw). -/

/-- `const maxRetries = 30` in `retryConnection`. -/
def connMaxRetries : Nat := 30

/-- The fixed `setInterval` period in `retryConnection` (10000 ms). -/
def connRetryIntervalMs : Nat := 10000

/-- What a finished connection-retry interval did: how many
`requestDependency` attempts it made, how many "could not connect"
warnings it showed, and the response obtained (none = gave up). -/
structure ConnResult where
  attempts : Nat
  warnings : Nat
  connected : Option RespStatus
  pollActive : Bool
deriving DecidableEq, Repr

/-- One tick of the `retryConnection` interval with `retryCount` already
incremented to `count`, followed by all later ticks. -/
def connRetryAux (attempt : Nat → Option RespStatus) (count : Nat) :
    ConnResult :=
  if _h : connMaxRetries < count then
    { attempts := 0, warnings := 1, connected := none, pollActive := false }
  else
    match attempt count with
    | some r =>
        { attempts := 1, warnings := 0, connected := some r,
          pollActive := false }
    | none =>
        let rest := connRetryAux attempt (count + 1)
        { rest with attempts := rest.attempts + 1 }
termination_by connMaxRetries + 1 - count

/-- `retryConnection`: the first tick runs with `retryCount = 1`. -/
def retryConnection (attempt : Nat → Option RespStatus) : ConnResult :=
  connRetryAux attempt 1

/-- `DependencyInfo` record (src/models/DependencyInfo.ts). -/
structure DependencyInfo where
  packageName : String
  packageManager : String
  version : String
  status : ApprovalStatus
deriving DecidableEq, Repr

/-- The transport-failure branch of `DependencyValidator.validateDependency`
(lines 67-87): set the dependency's status to `pending`, then enter
connection-retry mode; if a retry tick obtains a response,
`handleDependencyResponse` stores the response's status. -/
def validateTransportFail (dep : DependencyInfo)
    (attempt : Nat → Option RespStatus) : DependencyInfo × ConnResult :=
  let dep' := { dep with status := ApprovalStatus.pending }
  let res := retryConnection attempt
  match res.connected with
  | some r => ({ dep' with status := r.toApproval }, res)
  | none => (dep', res)

theorem connRetryAux_attempts_le (attempt : Nat → Option RespStatus)
    (count : Nat) (hc : 1 ≤ count) :
    (connRetryAux attempt count).attempts ≤ connMaxRetries + 1 - count := by
  rw [connRetryAux]
  by_cases h : connMaxRetries < count
  · simp [h]
  · cases ha : attempt count with
    | some r => simp [h, ha]; omega
    | none =>
        have ih := connRetryAux_attempts_le attempt (count + 1) (by omega)
        simp [h, ha]
        omega
termination_by connMaxRetries + 1 - count

theorem connRetryAux_all_fail (attempt : Nat → Option RespStatus)
    (hfail : ∀ n, attempt n = none) (count : Nat)
    (hc : count ≤ connMaxRetries + 1) :
    connRetryAux attempt count =
      { attempts := connMaxRetries + 1 - count, warnings := 1,
        connected := none, pollActive := false } := by
  rw [connRetryAux]
  by_cases h : connMaxRetries < count
  · simp only [h, dif_pos]
    have : connMaxRetries + 1 - count = 0 := by omega
    rw [this]
  · have ih := connRetryAux_all_fail attempt hfail (count + 1) (by omega)
    simp only [h, dif_neg, hfail count, ih]
    simp
    omega
termination_by connMaxRetries + 1 - count

theorem connRetryAux_first_success (attempt : Nat → Option RespStatus)
    (k : Nat) (r : RespStatus) (hk2 : k ≤ connMaxRetries)
    (hbefore : ∀ n, n < k → attempt n = none) (hk : attempt k = some r)
    (c : Nat) (hc2 : c ≤ k) :
    connRetryAux attempt c =
      { attempts := k + 1 - c, warnings := 0, connected := some r,
        pollActive := false } := by
  rw [connRetryAux]
  have hnc : ¬ connMaxRetries < c := by omega
  by_cases hck : c = k
  · subst hck
    simp only [hnc, dif_neg, hk]
    have h1 : c + 1 - c = 1 := by omega
    rw [h1]
    simp
  · have hac : attempt c = none := hbefore c (by omega)
    have ih := connRetryAux_first_success attempt k r hk2 hbefore hk (c + 1)
      (by omega)
    simp only [hnc, dif_neg, hac, ih]
    simp
    omega
termination_by k - c

/-- C5 (amended): in connection-retry mode at most 30 attempts are made;
if every attempt fails the task stops itself, emits exactly one
"could not connect" warning, makes exactly 30 attempts, and the
dependency's status is left at `pending` (the transport-failure branch of
`validateDependency` set it to `pending`, not `error`); if the tick at
`retryCount = k` succeeds with response `r` and all earlier ticks failed,
retrying stops after `k` attempts and the status becomes `r`. -/
theorem retryConnection_spec (dep : DependencyInfo)
    (attempt : Nat → Option RespStatus) :
    ((validateTransportFail dep attempt).2.attempts ≤ connMaxRetries) ∧
    ((∀ n, attempt n = none) →
      validateTransportFail dep attempt =
        ({ dep with status := ApprovalStatus.pending },
         { attempts := connMaxRetries, warnings := 1, connected := none,
           pollActive := false })) ∧
    (∀ k r, 1 ≤ k → k ≤ connMaxRetries →
      (∀ n, n < k → attempt n = none) → attempt k = some r →
      validateTransportFail dep attempt =
        ({ dep with status := r.toApproval },
         { attempts := k, warnings := 0, connected := some r,
           pollActive := false })) := by
  refine ⟨?_, ?_, ?_⟩
  · have h := connRetryAux_attempts_le attempt 1 (by omega)
    have hsnd : (validateTransportFail dep attempt).2 = retryConnection attempt := by
      unfold validateTransportFail
      cases hc : (retryConnection attempt).connected <;> simp [hc]
    rw [hsnd, retryConnection]
    omega
  · intro hfail
    have h := connRetryAux_all_fail attempt hfail 1 (by omega)
    unfold validateTransportFail retryConnection
    rw [h]
    simp [connMaxRetries]
  · intro k r hk1 hk2 hbefore hk
    have key := connRetryAux_first_success attempt k r hk2 hbefore hk 1 hk1
    unfold validateTransportFail retryConnection
    rw [key]
    simp

/-- Witness for `retryConnection_spec`: a dependency whose submission keeps
failing ends connection-retry mode with status `pending`, 30 attempts and
one warning. -/
theorem retryConnection_spec_witness :
    validateTransportFail
        { packageName := "axios", packageManager := "npm",
          version := "1.0.0", status := ApprovalStatus.pending }
        (fun _ => none) =
      ({ packageName := "axios", packageManager := "npm",
         version := "1.0.0", status := ApprovalStatus.pending },
       { attempts := connMaxRetries, warnings := 1, connected := none,
         pollActive := false }) :=
  (retryConnection_spec _ _).2.1 (fun _ => rfl)

/-- Counterexample to C5 as stated: after connection-retry mode exhausts
its attempts, the dependency's status is `pending`, not `error` — the
transport-failure branch of `validateDependency` sets `pending` before
entering retry mode and exhaustion does not change it. -/
theorem retryConnection_status_cex :
    (validateTransportFail
        { packageName := "lodash", packageManager := "npm",
          version := "4.17.21", status := ApprovalStatus.pending }
        (fun _ => none)).1.status = ApprovalStatus.pending ∧
    ApprovalStatus.pending ≠ ApprovalStatus.error := by
  constructor
  · have h := connRetryAux_all_fail (fun _ => none) (fun _ => rfl) 1 (by omega)
    unfold validateTransportFail retryConnection
    rw [h]
  · decide

/-! ### Logger.sanitize (src/utils/logger.ts lines 12-37)

`JSON.stringify(args, this.sanitize, 2)` serializes the structured
arguments with a replacer that substitutes `'***REDACTED***'` for the
value of every field whose key contains `token`, `password` or `secret`
case-insensitively.  JSON values are modelled as a mutual inductive
(arrays and objects carry their own spines so that all recursion is
structural); the replacer semantics of `JSON.stringify` — replace the
value before recursing into it, keys of array elements are numeric
strings — is captured by `sanitizeV`: object fields with a secret key
become the redacted leaf without recursion, everything else recurses. -/

mutual
inductive JValue where
  | str (s : String)
  | num (n : Int)
  | bool (b : Bool)
  | null
  | arr (a : JArr)
  | obj (o : JObj)
inductive JArr where
  | nil
  | cons (hd : JValue) (tl : JArr)
inductive JObj where
  | nil
  | cons (key : String) (val : JValue) (tl : JObj)
end

deriving instance DecidableEq for JValue
deriving instance DecidableEq for JArr
deriving instance DecidableEq for JObj

/-- `key.toLowerCase().includes(pat)` — prefix test on char lists. -/
def chPrefix : List Char → List Char → Bool
  | [], _ => true
  | _ :: _, [] => false
  | a :: as, b :: bs => a == b && chPrefix as bs

/-- Substring occurrence test on char lists. -/
def chInfix (pat : List Char) : List Char → Bool
  | [] => chPrefix pat []
  | c :: t => chPrefix pat (c :: t) || chInfix pat t

/-- `key.toLowerCase()` over the character sequence (ASCII case fold,
which is what the keys in this codebase use). -/
def lowerChars (s : String) : List Char := s.toList.map Char.toLower

/-- The secret-key test of `Logger.sanitize`:
`key.toLowerCase().includes('token') || ...('password') || ...('secret')`. -/
def isSecretKey (k : String) : Bool :=
  chInfix "token".toList (lowerChars k) ||
    chInfix "password".toList (lowerChars k) ||
    chInfix "secret".toList (lowerChars k)

/-- The replacement value `'***REDACTED***'`. -/
def redacted : JValue := .str "***REDACTED***"

mutual
/-- `JSON.stringify(·, sanitize)` as a tree transformation. -/
def sanitizeV : JValue → JValue
  | .str s => .str s
  | .num n => .num n
  | .bool b => .bool b
  | .null => .null
  | .arr a => .arr (sanitizeA a)
  | .obj o => .obj (sanitizeO o)
def sanitizeA : JArr → JArr
  | .nil => .nil
  | .cons h t => .cons (sanitizeV h) (sanitizeA t)
def sanitizeO : JObj → JObj
  | .nil => .nil
  | .cons k v t =>
      .cons k (if isSecretKey k then redacted else sanitizeV v) (sanitizeO t)
end

mutual
/-- Erase the value under every secret key (to `null`): two argument
lists "differ only in secret values" exactly when their scrubs agree. -/
def scrubV : JValue → JValue
  | .str s => .str s
  | .num n => .num n
  | .bool b => .bool b
  | .null => .null
  | .arr a => .arr (scrubA a)
  | .obj o => .obj (scrubO o)
def scrubA : JArr → JArr
  | .nil => .nil
  | .cons h t => .cons (scrubV h) (scrubA t)
def scrubO : JObj → JObj
  | .nil => .nil
  | .cons k v t =>
      .cons k (if isSecretKey k then .null else scrubV v) (scrubO t)
end

mutual
/-- Turn the placeholder under every secret key into the redacted leaf. -/
def relabelV : JValue → JValue
  | .str s => .str s
  | .num n => .num n
  | .bool b => .bool b
  | .null => .null
  | .arr a => .arr (relabelA a)
  | .obj o => .obj (relabelO o)
def relabelA : JArr → JArr
  | .nil => .nil
  | .cons h t => .cons (relabelV h) (relabelA t)
def relabelO : JObj → JObj
  | .nil => .nil
  | .cons k v t =>
      .cons k (if isSecretKey k then redacted else relabelV v) (relabelO t)
end

mutual
/-- Every field with a secret key, at any depth, holds the redacted leaf. -/
def secretsRedactedV : JValue → Bool
  | .str _ => true
  | .num _ => true
  | .bool _ => true
  | .null => true
  | .arr a => secretsRedactedA a
  | .obj o => secretsRedactedO o
def secretsRedactedA : JArr → Bool
  | .nil => true
  | .cons h t => secretsRedactedV h && secretsRedactedA t
def secretsRedactedO : JObj → Bool
  | .nil => true
  | .cons k v t =>
      (if isSecretKey k then
        match v with
        | .str s => s == "***REDACTED***"
        | _ => false
      else secretsRedactedV v) && secretsRedactedO t
end

mutual
theorem sanitizeV_factors : ∀ v : JValue, sanitizeV v = relabelV (scrubV v)
  | .str _ => rfl
  | .num _ => rfl
  | .bool _ => rfl
  | .null => rfl
  | .arr a => congrArg JValue.arr (sanitizeA_factors a)
  | .obj o => congrArg JValue.obj (sanitizeO_factors o)
theorem sanitizeA_factors : ∀ a : JArr, sanitizeA a = relabelA (scrubA a)
  | .nil => rfl
  | .cons h t => by
      rw [sanitizeA, scrubA, relabelA, sanitizeV_factors h, sanitizeA_factors t]
theorem sanitizeO_factors : ∀ o : JObj, sanitizeO o = relabelO (scrubO o)
  | .nil => rfl
  | .cons k v t => by
      rw [sanitizeO, scrubO, relabelO, sanitizeO_factors t]
      by_cases hk : isSecretKey k
      · simp [hk]
      · simp [hk, sanitizeV_factors v]
end

mutual
theorem sanitizeV_redacts : ∀ v : JValue, secretsRedactedV (sanitizeV v) = true
  | .str _ => rfl
  | .num _ => rfl
  | .bool _ => rfl
  | .null => rfl
  | .arr a => sanitizeA_redacts a
  | .obj o => sanitizeO_redacts o
theorem sanitizeA_redacts : ∀ a : JArr, secretsRedactedA (sanitizeA a) = true
  | .nil => rfl
  | .cons h t => by
      rw [sanitizeA, secretsRedactedA, sanitizeV_redacts h, sanitizeA_redacts t]
      rfl
theorem sanitizeO_redacts : ∀ o : JObj, secretsRedactedO (sanitizeO o) = true
  | .nil => rfl
  | .cons k v t => by
      by_cases hk : isSecretKey k
      · simp [sanitizeO, secretsRedactedO, hk, redacted, sanitizeO_redacts t]
      · simp [sanitizeO, secretsRedactedO, hk, sanitizeV_redacts v,
          sanitizeO_redacts t]
end

/-- C9: the sanitizing replacer redacts every field whose key contains
'token', 'password' or 'secret' (case-insensitive), so the serialized
log output is a function of the secret-erased argument tree alone: any
two argument trees that agree outside secret-keyed values sanitize to
the same tree. -/
theorem logger_sanitize_noninterference (a b : JValue)
    (h : scrubV a = scrubV b) :
    sanitizeV a = sanitizeV b ∧
    secretsRedactedV (sanitizeV a) = true := by
  constructor
  · rw [sanitizeV_factors a, sanitizeV_factors b, h]
  · exact sanitizeV_redacts a

/-- Witness for `logger_sanitize_noninterference`: two log payloads that
differ only in the value under the key `apiToken` sanitize identically. -/
theorem logger_sanitize_noninterference_witness :
    sanitizeV (.obj (.cons "apiToken" (.str "ghp_secret_value_one")
        (.cons "apiUrl" (.str "https://api.repogate.io") .nil))) =
      sanitizeV (.obj (.cons "apiToken" (.str "ghp_other_value")
        (.cons "apiUrl" (.str "https://api.repogate.io") .nil))) ∧
    secretsRedactedV (sanitizeV (.obj (.cons "apiToken"
        (.str "ghp_secret_value_one")
        (.cons "apiUrl" (.str "https://api.repogate.io") .nil)))) = true :=
  logger_sanitize_noninterference _ _ (by decide)

/-! ### DiagnosticsProvider (src/ui/diagnostics/diagnosticsProvider.ts)

`fileDiagnostics : Map<string, DependencyDiagnostic[]>` keyed by file
path.  `addDiagnostic` splices out the existing entry with the same
package name before pushing the new one; `removeDiagnostic` splices out
the entry with the given name when present. -/

/-- `DependencyDiagnostic` record (diagnosticsProvider.ts lines 4-11). -/
structure DependencyDiagnostic where
  name : String
  version : Option String
  status : RespStatus
  message : String
  line : Nat
  reasonUrl : Option String
deriving DecidableEq, Repr

/-- The `fileDiagnostics` map. -/
def DiagState : Type := List (String × List DependencyDiagnostic)

/-- The empty diagnostics store. -/
def diagInit : DiagState := []

/-- `addDiagnostic(uri, diagnostic)` (lines 24-43): ensure the file's
list exists, remove any existing diagnostic with the same name
(`findIndex` + `splice`), then push the new one. -/
def addDiagnostic (st : DiagState) (path : String)
    (d : DependencyDiagnostic) : DiagState :=
  let cur := (alistGet st path).getD []
  alistSet st path (cur.eraseP (fun x => x.name == d.name) ++ [d])

/-- `removeDiagnostic(uri, packageName)` (lines 48-59): when the file has
a diagnostic with that name, splice it out. -/
def removeDiagnostic (st : DiagState) (path : String) (name : String) :
    DiagState :=
  match alistGet st path with
  | none => st
  | some cur =>
      if cur.any (fun x => x.name == name) then
        alistSet st path (cur.eraseP (fun x => x.name == name))
      else st

/-- `clearFile(uri)` (lines 64-68): drop the file's whole diagnostic
list.  A JS Map holds at most one binding per key, so deleting the
binding coincides with filtering the key out. -/
def clearFile (st : DiagState) (path : String) : DiagState :=
  st.filter (fun p => !(p.1 == path))

/-- A call to the diagnostics store. -/
inductive DiagOp where
  | add (path : String) (d : DependencyDiagnostic)
  | remove (path : String) (name : String)

/-- Apply one call. -/
def applyDiagOp (st : DiagState) : DiagOp → DiagState
  | .add path d => addDiagnostic st path d
  | .remove path name => removeDiagnostic st path name

/-- Replay a sequence of calls against the empty store. -/
def runDiagOps (ops : List DiagOp) : DiagState :=
  ops.foldl applyDiagOp diagInit

/-- At most one diagnostic entry with a given name in a given file. -/
def diagUnique (st : DiagState) : Prop :=
  ∀ path l, alistGet st path = some l →
    ∀ n, (l.countP (fun x => x.name == n)) ≤ 1

theorem alistGet_alistSet_eq {α : Type} (l : List (String × α)) (k : String)
    (v : α) : alistGet (alistSet l k v) k = some v := by
  induction l with
  | nil => simp [alistSet, alistGet]
  | cons p t ih =>
      by_cases h : p.1 == k
      · simp [alistSet, h, alistGet]
      · simp only [alistSet]
        rw [if_neg (by simpa using h)]
        simp only [alistGet, List.find?] at ih ⊢
        simp [h, ih]

theorem alistGet_alistSet_ne {α : Type} (l : List (String × α))
    (k k' : String) (v : α) (hne : k' ≠ k) :
    alistGet (alistSet l k v) k' = alistGet l k' := by
  induction l with
  | nil =>
      simp only [alistSet, alistGet, List.find?]
      have hf : (k == k') = false := by
        simpa using Ne.symm hne
      simp [hf]
  | cons p t ih =>
      by_cases h : p.1 == k
      · have hp : p.1 = k := by simpa using h
        simp only [alistSet, h, if_pos rfl]
        simp only [alistGet, List.find?]
        have h1 : (k == k') = false := by
          simp [(Ne.symm hne)]
        have h2 : (p.1 == k') = false := by
          simp [hp, Ne.symm hne]
        simp [h1, h2]
      · simp only [alistSet]
        rw [if_neg (by simpa using h)]
        simp only [alistGet, List.find?] at ih ⊢
        cases hpk : (p.1 == k') <;> simp [hpk, ih]

theorem countP_le_one_eraseP {α : Type} (p : α → Bool)
    (l : List α) (h : l.countP p ≤ 1) :
    (l.eraseP p).countP p = 0 := by
  induction l with
  | nil => simp
  | cons a t ih =>
      by_cases hpa : p a
      · rw [List.eraseP_cons_of_pos hpa]
        rw [List.countP_cons_of_pos _ _ hpa] at h
        omega
      · rw [List.eraseP_cons_of_neg hpa]
        rw [List.countP_cons_of_neg _ _ hpa] at h
        rw [List.countP_cons_of_neg _ _ hpa]
        exact ih h

theorem diagUnique_add (st : DiagState) (path : String)
    (d : DependencyDiagnostic) (h : diagUnique st) :
    diagUnique (addDiagnostic st path d) := by
  intro path' l' hget n
  by_cases hp : path' = path
  · subst hp
    rw [addDiagnostic, alistGet_alistSet_eq] at hget
    obtain rfl : ((alistGet st path').getD []).eraseP
        (fun x => x.name == d.name) ++ [d] = l' := by
      exact Option.some.inj hget
    have hcur : ((alistGet st path').getD []).countP
        (fun x => x.name == n) ≤ 1 := by
      cases hcase : alistGet st path' with
      | none => simp
      | some l0 => simpa using h path' l0 hcase n
    rw [List.countP_append]
    by_cases hdn : (d.name == n) = true
    · have heq : d.name = n := by simpa using hdn
      subst heq
      have hzero := countP_le_one_eraseP (fun x => x.name == d.name)
        ((alistGet st path').getD []) hcur
      have h1 : List.countP (fun x => x.name == d.name) [d] = 1 := by
        simp
      omega
    · have : List.countP (fun x => x.name == n) [d] = 0 := by
        simp [List.countP, List.countP.go, hdn]
      rw [this]
      have hsub := (List.eraseP_sublist (p := fun x => x.name == d.name)
        ((alistGet st path').getD [])).countP_le (p := fun x => x.name == n)
      omega
  · rw [addDiagnostic, alistGet_alistSet_ne _ _ _ _ hp] at hget
    exact h path' l' hget n

theorem diagUnique_remove (st : DiagState) (path name : String)
    (h : diagUnique st) : diagUnique (removeDiagnostic st path name) := by
  intro path' l' hget n
  rw [removeDiagnostic] at hget
  split at hget
  · exact h path' l' hget n
  · rename_i cur hcase
    by_cases hany : cur.any (fun x => x.name == name)
    · rw [if_pos hany] at hget
      by_cases hp : path' = path
      · subst hp
        rw [alistGet_alistSet_eq] at hget
        obtain rfl : cur.eraseP (fun x => x.name == name) = l' :=
          Option.some.inj hget
        have hsub := (List.eraseP_sublist (p := fun x => x.name == name)
          cur).countP_le (p := fun x => x.name == n)
        have := h path' cur hcase n
        omega
      · rw [alistGet_alistSet_ne _ _ _ _ hp] at hget
        exact h path' l' hget n
    · rw [if_neg hany] at hget
      exact h path' l' hget n

theorem diagUnique_fold (ops : List DiagOp) (st : DiagState)
    (h : diagUnique st) : diagUnique (ops.foldl applyDiagOp st) := by
  induction ops generalizing st with
  | nil => simpa using h
  | cons op t ih =>
      rw [List.foldl_cons]
      apply ih
      cases op with
      | add path d => exact diagUnique_add st path d h
      | remove path name => exact diagUnique_remove st path name h

/-- C8: after any sequence of `addDiagnostic` / `removeDiagnostic` calls,
each (file path, package name) pair has at most one diagnostic entry:
`addDiagnostic` replaces the existing entry instead of appending a
duplicate. -/
theorem diagnostics_unique (ops : List DiagOp) :
    diagUnique (runDiagOps ops) := by
  apply diagUnique_fold
  intro path l hget n
  simp [diagInit, alistGet] at hget

/-! ### GradleWatcher lifecycle state machine
(src/watchers/gradleWatcher.ts)

State per watcher: `statusCache` (nested `Map<path, Map<name, dep>>`,
flattened here to a single map keyed by (path, name)), `pollingIntervals`
(`Map<key, Timeout>`), the `pendingNotifications` name set, and the
diagnostics store.  `setInterval` handles are modelled as (key, id)
pairs in a list of live timers plus the map from key to the stored
handle, so a leaked or duplicated timer would be visible.  The
asynchronous handlers are modelled as atomic events carrying the
network's answer (`none` = the awaited call threw); the config lookup is
assumed to succeed (an absent API token makes every handler a no-op).
Events are fed to `step`; `validWEventB` captures the code-level guards:
`handleNewDependency` fires only for dependencies absent from the status
cache (the diff yields dependencies absent from the cached previous
content), an interval tick fires only while its timer is live, and
`handleRemovedDependency` fires only for cached dependencies. -/

/-- The `${uri.fsPath}:${dep.packageName}` polling key. -/
structure DepKey where
  path : String
  name : String
deriving DecidableEq, Repr

/-- Tracked per-dependency state held in `statusCache` (the
`DependencyInfo` object: its version and mutable status). -/
structure TrackedInfo where
  version : Option String
  status : ApprovalStatus
deriving DecidableEq, Repr

/-- A `CheckResponse` as consumed by the watcher. -/
structure CheckResponseM where
  status : RespStatus
  message : String
  reasonUrl : Option String
deriving DecidableEq, Repr

/-- `map.get(k)` for maps keyed by `DepKey`. -/
def kget {α : Type} (l : List (DepKey × α)) (k : DepKey) : Option α :=
  match l.find? (fun p => decide (p.1 = k)) with
  | some p => some p.2
  | none => none

/-- `map.set(k, v)` for maps keyed by `DepKey`. -/
def kset {α : Type} (l : List (DepKey × α)) (k : DepKey) (v : α) :
    List (DepKey × α) :=
  match l with
  | [] => [(k, v)]
  | (k', v') :: t => if k' = k then (k, v) :: t else (k', v') :: kset t k v

/-- `map.delete(k)` for maps keyed by `DepKey`.  A JS Map holds at most
one binding per key, so deleting the binding coincides with filtering
the key out. -/
def kdel {α : Type} (l : List (DepKey × α)) (k : DepKey) :
    List (DepKey × α) :=
  l.filter (fun p => decide (p.1 ≠ k))

/-- Watcher state (the fields of `GradleWatcher`). -/
structure WatcherState where
  tracked : List (DepKey × TrackedInfo)
  timers : List (DepKey × Nat)
  intervalMap : List (DepKey × Nat)
  pendingNotifs : List String
  diags : DiagState
  nextId : Nat

/-- The freshly constructed watcher. -/
def initWatcher : WatcherState :=
  { tracked := [], timers := [], intervalMap := [], pendingNotifs := [],
    diags := diagInit, nextId := 0 }

/-- Observable calls made by the watcher. -/
inductive OutEvent where
  | apiRequest (k : DepKey)
  | apiCheck (k : DepKey)
  | apiUpdateRemoved (k : DepKey)
  | notifApproved (name : String)
  | notifDenied (name : String)
  | notifPending (name : String)
  | notifScanning (name : String)
  | notifNotFound (name : String)
  | notifRemovalConfirmed (name : String)
  | notifRequestError (name : String)
deriving DecidableEq, Repr

/-- The notification switch of `handleDependencyResponse`
(gradleWatcher.ts lines 163-192): terminal statuses always notify;
the three non-terminal statuses notify only when the package name is
absent from the shared `pendingNotifications` set, then add the name. -/
def showForStatus (pn : List String) (name : String) (r : RespStatus) :
    List String × List OutEvent :=
  match r with
  | .approved => (pn, [.notifApproved name])
  | .denied => (pn, [.notifDenied name])
  | .pending =>
      if name ∈ pn then (pn, []) else (name :: pn, [.notifPending name])
  | .scanning =>
      if name ∈ pn then (pn, []) else (name :: pn, [.notifScanning name])
  | .not_found =>
      if name ∈ pn then (pn, []) else (name :: pn, [.notifNotFound name])

/-- `handleDependencyResponse` (lines 150-193): upsert the diagnostic,
then run the notification switch. -/
def handleDependencyResponse (st : WatcherState) (k : DepKey)
    (version : Option String) (res : CheckResponseM) (line : Nat) :
    WatcherState × List OutEvent :=
  let diags' := addDiagnostic st.diags k.path
    { name := k.name, version := version, status := res.status,
      message := res.message, line := line, reasonUrl := res.reasonUrl }
  let pe := showForStatus st.pendingNotifs k.name res.status
  ({ st with diags := diags', pendingNotifs := pe.1 }, pe.2)

/-- `startPolling` (lines 198-216): clear the interval stored for the
key, then install a fresh one and store its handle. -/
def startPolling (st : WatcherState) (k : DepKey) : WatcherState :=
  let timers1 :=
    match kget st.intervalMap k with
    | some oldId =>
        st.timers.eraseP (fun t => decide (t.1 = k ∧ t.2 = oldId))
    | none => st.timers
  { st with
    timers := (k, st.nextId) :: timers1,
    intervalMap := kset st.intervalMap k st.nextId,
    nextId := st.nextId + 1 }

/-- `stopPolling` (lines 221-232): clear and drop the stored interval
when present, and always drop the name from `pendingNotifications`. -/
def stopPolling (st : WatcherState) (k : DepKey) : WatcherState :=
  let st1 :=
    match kget st.intervalMap k with
    | some oldId =>
        { st with
          timers := st.timers.eraseP (fun t => decide (t.1 = k ∧ t.2 = oldId)),
          intervalMap := kdel st.intervalMap k }
    | none => st
  { st1 with pendingNotifs := st1.pendingNotifs.erase k.name }

/-- An event delivered to the watcher:
`newDep` = `handleNewDependency` for a dependency reported added
(`res = none` means `client.request` threw);
`pollTick` = one `checkDependencyStatus` interval tick
(`res = none` means `client.check` threw);
`removed` = `handleRemovedDependency` plus the caller's
`statusMap.delete` (`updateOk` = whether `client.update` succeeded). -/
inductive WEvent where
  | newDep (k : DepKey) (version : Option String)
      (res : Option CheckResponseM) (line : Nat)
  | pollTick (k : DepKey) (res : Option CheckResponseM) (line : Nat)
  | removed (k : DepKey) (updateOk : Bool)
  | fileDelete (path : String)
deriving DecidableEq, Repr

/-- One event step of the watcher (gradleWatcher.ts lines 105-145,
237-267, 272-306, and 95-100 for `handleFileDelete`, which drops the
file's status-cache entries and diagnostics but does NOT clear its
poll intervals). -/
def step (st : WatcherState) : WEvent → WatcherState × List OutEvent
  | .newDep k version res line =>
      let st0 := { st with
        tracked := kset st.tracked k ⟨version, ApprovalStatus.pending⟩ }
      match res with
      | none => (st0, [.apiRequest k, .notifRequestError k.name])
      | some r =>
          let st1 := { st0 with
            tracked := kset st0.tracked k ⟨version, r.status.toApproval⟩ }
          let se := handleDependencyResponse st1 k version r line
          if r.status.nonTerminal then
            (startPolling se.1 k, .apiRequest k :: se.2)
          else
            (se.1, .apiRequest k :: se.2)
  | .pollTick k res line =>
      match res with
      | none => (st, [.apiCheck k])
      | some r =>
          let vers :=
            match kget st.tracked k with
            | some ti => ti.version
            | none => none
          let st1 := { st with
            tracked :=
              match kget st.tracked k with
              | some _ => kset st.tracked k ⟨vers, r.status.toApproval⟩
              | none => st.tracked }
          let se := handleDependencyResponse st1 k vers r line
          if r.status.nonTerminal then
            (se.1, .apiCheck k :: se.2)
          else
            (stopPolling se.1 k, .apiCheck k :: se.2)
  | .removed k updateOk =>
      let lastStatus := (kget st.tracked k).map TrackedInfo.status
      let st1 := stopPolling st k
      let st2 := { st1 with
        diags := removeDiagnostic st1.diags k.path k.name }
      let st3 := { st2 with tracked := kdel st2.tracked k }
      let notifs :=
        if updateOk then
          if lastStatus = some ApprovalStatus.denied then
            [OutEvent.notifRemovalConfirmed k.name]
          else []
        else []
      (st3, OutEvent.apiUpdateRemoved k :: notifs)
  | .fileDelete path =>
      ({ st with
          tracked := st.tracked.filter (fun p => decide (p.1.path ≠ path)),
          diags := clearFile st.diags path },
       [])

/-- Guard under which the code delivers an event (see section header).
`handleFileDelete` fires on any `onDidDelete` event. -/
def validWEventB (st : WatcherState) : WEvent → Bool
  | .newDep k _ _ _ => (kget st.tracked k).isNone
  | .pollTick k _ _ => st.timers.any (fun t => decide (t.1 = k))
  | .removed k _ => (kget st.tracked k).isSome
  | .fileDelete _ => true

/-- The event is `handleFileDelete`. -/
def isFileDelete : WEvent → Bool
  | .fileDelete _ => true
  | _ => false

/-- A whole event sequence is deliverable from a state. -/
def validSeqB (st : WatcherState) : List WEvent → Bool
  | [] => true
  | e :: t => validWEventB st e && validSeqB (step st e).1 t

/-- Run a sequence of events, collecting all observable calls. -/
def runW (st : WatcherState) : List WEvent → WatcherState × List OutEvent
  | [] => (st, [])
  | e :: t =>
      let se := step st e
      let rest := runW se.1 t
      (rest.1, se.2 ++ rest.2)

theorem kget_kset_eq {α : Type} (l : List (DepKey × α)) (k : DepKey)
    (v : α) : kget (kset l k v) k = some v := by
  induction l with
  | nil => simp [kset, kget]
  | cons p t ih =>
      by_cases h : p.1 = k
      · simp [kset, h, kget]
      · simp only [kset, if_neg h]
        simp only [kget, List.find?] at ih ⊢
        simp [h, ih]

theorem kget_kset_ne {α : Type} (l : List (DepKey × α)) (k k' : DepKey)
    (v : α) (hne : k' ≠ k) : kget (kset l k v) k' = kget l k' := by
  induction l with
  | nil =>
      simp only [kset, kget, List.find?]
      simp [Ne.symm hne]
  | cons p t ih =>
      by_cases h : p.1 = k
      · simp only [kset, if_pos h]
        simp only [kget, List.find?]
        have h1 : (decide (k = k')) = false := by simp [Ne.symm hne]
        have h2 : (decide (p.1 = k')) = false := by simp [h, Ne.symm hne]
        simp [h1, h2]
      · simp only [kset, if_neg h]
        simp only [kget, List.find?] at ih ⊢
        cases hpk : decide (p.1 = k') <;> simp [hpk, ih]

theorem kget_cons {α : Type} (p : DepKey × α) (t : List (DepKey × α))
    (k : DepKey) :
    kget (p :: t) k = if p.1 = k then some p.2 else kget t k := by
  by_cases h : p.1 = k <;> simp [kget, List.find?, h]

theorem kdel_cons {α : Type} (p : DepKey × α) (t : List (DepKey × α))
    (k : DepKey) :
    kdel (p :: t) k = if p.1 = k then kdel t k else p :: kdel t k := by
  by_cases h : p.1 = k <;> simp [kdel, List.filter_cons, h]

theorem kget_kdel_self {α : Type} (l : List (DepKey × α)) (k : DepKey) :
    kget (kdel l k) k = none := by
  induction l with
  | nil => simp [kdel, kget]
  | cons p t ih =>
      rw [kdel_cons]
      by_cases h : p.1 = k
      · rw [if_pos h]; exact ih
      · rw [if_neg h, kget_cons, if_neg h]; exact ih

theorem kget_kdel_ne {α : Type} (l : List (DepKey × α)) (k k' : DepKey)
    (hne : k' ≠ k) : kget (kdel l k) k' = kget l k' := by
  induction l with
  | nil => simp [kdel, kget]
  | cons p t ih =>
      rw [kdel_cons]
      by_cases h : p.1 = k
      · rw [if_pos h, kget_cons]
        have h2 : ¬ p.1 = k' := by rw [h]; exact Ne.symm hne
        rw [if_neg h2]
        exact ih
      · rw [if_neg h, kget_cons, kget_cons]
        by_cases h2 : p.1 = k'
        · rw [if_pos h2, if_pos h2]
        · rw [if_neg h2, if_neg h2]; exact ih

theorem countP_eraseP_zero {α : Type} (pk p : α → Bool) (l : List α)
    (hle : l.countP pk ≤ 1) (himp : ∀ x, p x = true → pk x = true) :
    (l.eraseP p).countP pk = 0 ∨ l.eraseP p = l := by
  induction l with
  | nil => right; rfl
  | cons x t ih =>
      by_cases hpx : p x
      · left
        rw [List.eraseP_cons_of_pos hpx]
        rw [List.countP_cons_of_pos _ _ (himp x hpx)] at hle
        omega
      · rw [List.eraseP_cons_of_neg hpx]
        by_cases hpkx : pk x
        · rw [List.countP_cons_of_pos _ _ hpkx] at hle
          have ht : t.countP pk = 0 := by omega
          right
          have hself : t.eraseP p = t := by
            rw [List.eraseP_eq_self_iff]
            intro a ha hpa
            have hpka := himp a hpa
            have hpos : 0 < t.countP pk :=
              List.countP_pos_iff.mpr ⟨a, ha, hpka⟩
            omega
          rw [hself]
        · rw [List.countP_cons_of_neg _ _ hpkx] at hle
          rcases ih hle with h0 | heq
          · left; rw [List.countP_cons_of_neg _ _ hpkx]; exact h0
          · right; rw [heq]

theorem countP_eraseP_of_disj {α : Type} (pk p : α → Bool) (l : List α)
    (h : ∀ x, p x = true → pk x = false) :
    (l.eraseP p).countP pk = l.countP pk := by
  induction l with
  | nil => rfl
  | cons x t ih =>
      by_cases hpx : p x
      · rw [List.eraseP_cons_of_pos hpx]
        rw [List.countP_cons_of_neg]
        intro hc
        rw [h x hpx] at hc
        exact Bool.false_ne_true hc
      · rw [List.eraseP_cons_of_neg hpx]
        by_cases hpkx : pk x
        · rw [List.countP_cons_of_pos _ _ hpkx,
            List.countP_cons_of_pos _ _ hpkx, ih]
        · rw [List.countP_cons_of_neg _ _ hpkx,
            List.countP_cons_of_neg _ _ hpkx, ih]

/-- The timer bookkeeping alone: the timer list and the
`pollingIntervals` map describe the same set of live intervals (no
leaked and no duplicated timer).  Unlike the full `WInv`, this is
preserved by EVERY event, including `handleFileDelete` (which never
touches the intervals). -/
structure TimerInv (st : WatcherState) : Prop where
  memTimers : ∀ k id, (k, id) ∈ st.timers → kget st.intervalMap k = some id
  mapTimers : ∀ k id, kget st.intervalMap k = some id → (k, id) ∈ st.timers
  keyCount : ∀ k, st.timers.countP (fun t => decide (t.1 = k)) =
      (if (kget st.intervalMap k).isSome then 1 else 0)

/-- Structural invariant of the watcher, preserved by every deliverable
event other than a manifest file deletion: the timer bookkeeping, plus:
every polled key is tracked with a non-terminal status, and the
diagnostics store has at most one entry per (path, name).
`handleFileDelete` breaks the polled-implies-tracked field (it deletes
the path's status-cache entries but leaks its poll intervals). -/
structure WInv (st : WatcherState) : Prop where
  memTimers : ∀ k id, (k, id) ∈ st.timers → kget st.intervalMap k = some id
  mapTimers : ∀ k id, kget st.intervalMap k = some id → (k, id) ∈ st.timers
  keyCount : ∀ k, st.timers.countP (fun t => decide (t.1 = k)) =
      (if (kget st.intervalMap k).isSome then 1 else 0)
  polledTracked : ∀ k, (kget st.intervalMap k).isSome = true →
      ∃ ti, kget st.tracked k = some ti ∧ ti.status.isPolling = true
  diagsUnique : diagUnique st.diags

theorem initWatcher_WInv : WInv initWatcher := by
  refine ⟨?_, ?_, ?_, ?_, ?_⟩
  · intro k id h
    simp [initWatcher] at h
  · intro k id h
    simp [initWatcher, kget, List.find?] at h
  · intro k
    simp [initWatcher, kget, List.find?]
  · intro k h
    simp [initWatcher, kget, List.find?] at h
  · intro path l hget n
    simp [initWatcher, diagInit, alistGet] at hget

theorem stopPolling_fields (st : WatcherState) (k : DepKey) :
    (stopPolling st k).tracked = st.tracked ∧
    (stopPolling st k).diags = st.diags ∧
    (stopPolling st k).nextId = st.nextId := by
  unfold stopPolling
  cases kget st.intervalMap k <;> exact ⟨rfl, rfl, rfl⟩

theorem stopPolling_inv (st : WatcherState) (k : DepKey)
    (hmemT : ∀ k' id, (k', id) ∈ st.timers →
      kget st.intervalMap k' = some id)
    (hmapT : ∀ k' id, kget st.intervalMap k' = some id →
      (k', id) ∈ st.timers)
    (hkeyC : ∀ k', st.timers.countP (fun t => decide (t.1 = k')) =
      (if (kget st.intervalMap k').isSome then 1 else 0))
    (hpt : ∀ k', k' ≠ k → (kget st.intervalMap k').isSome = true →
      ∃ ti, kget st.tracked k' = some ti ∧ ti.status.isPolling = true)
    (hdg : diagUnique st.diags) :
    WInv (stopPolling st k) ∧
    kget (stopPolling st k).intervalMap k = none ∧
    (∀ id, (k, id) ∉ (stopPolling st k).timers) := by
  unfold stopPolling
  cases hmk : kget st.intervalMap k with
  | none =>
      simp only []
      have hnok : ∀ id, (k, id) ∉ st.timers := by
        intro id hmem
        rw [hmemT k id hmem] at hmk
        exact Option.noConfusion hmk
      refine ⟨⟨hmemT, hmapT, hkeyC, ?_, hdg⟩, hmk, hnok⟩
      intro k' hsome
      by_cases hkk : k' = k
      · subst hkk
        rw [hmk] at hsome
        exact absurd hsome (by simp)
      · exact hpt k' hkk hsome
  | some oldId =>
      simp only []
      have hcnt := hkeyC k
      rw [hmk] at hcnt
      simp at hcnt
      have hmem : (k, oldId) ∈ st.timers := hmapT k oldId hmk
      have himp : ∀ t : DepKey × Nat,
          (decide (t.1 = k ∧ t.2 = oldId)) = true →
          (decide (t.1 = k)) = true := by
        intro t ht
        simp at ht ⊢
        exact ht.1
      have hzero : (st.timers.eraseP
          (fun t => decide (t.1 = k ∧ t.2 = oldId))).countP
            (fun t => decide (t.1 = k)) = 0 := by
        rcases countP_eraseP_zero (fun t => decide (t.1 = k))
          (fun t => decide (t.1 = k ∧ t.2 = oldId)) st.timers
          (by omega) himp with h0 | heq
        · exact h0
        · exfalso
          have := List.eraseP_eq_self_iff.mp heq (k, oldId) hmem
          simp at this
      have hknot : ∀ id, (k, id) ∉
          st.timers.eraseP (fun t => decide (t.1 = k ∧ t.2 = oldId)) := by
        intro id hmem2
        have hpos : 0 < (st.timers.eraseP
            (fun t => decide (t.1 = k ∧ t.2 = oldId))).countP
              (fun t => decide (t.1 = k)) :=
          List.countP_pos_iff.mpr ⟨(k, id), hmem2, by simp⟩
        omega
      refine ⟨⟨?_, ?_, ?_, ?_, hdg⟩, kget_kdel_self _ _, hknot⟩
      · intro k' id hmem2
        have hin : (k', id) ∈ st.timers := List.mem_of_mem_eraseP hmem2
        have hne : k' ≠ k := by
          intro hkk
          subst hkk
          exact hknot id hmem2
        rw [kget_kdel_ne _ _ _ hne]
        exact hmemT k' id hin
      · intro k' id hget
        have hne : k' ≠ k := by
          intro hkk
          subst hkk
          rw [kget_kdel_self] at hget
          exact Option.noConfusion hget
        rw [kget_kdel_ne _ _ _ hne] at hget
        have hin := hmapT k' id hget
        rw [List.mem_eraseP_of_neg]
        · exact hin
        · simp
          intro hk
          exact absurd hk hne
      · intro k'
        by_cases hkk : k' = k
        · subst hkk
          rw [kget_kdel_self, hzero]
          rfl
        · rw [kget_kdel_ne _ _ _ hkk]
          rw [countP_eraseP_of_disj]
          · exact hkeyC k'
          · intro t ht
            simp at ht ⊢
            rw [ht.1]
            intro hc
            exact absurd hc.symm hkk
      · intro k' hsome
        by_cases hkk : k' = k
        · subst hkk
          rw [kget_kdel_self] at hsome
          exact absurd hsome (by simp)
        · rw [kget_kdel_ne _ _ _ hkk] at hsome
          exact hpt k' hkk hsome

theorem startPolling_fields (st : WatcherState) (k : DepKey) :
    (startPolling st k).tracked = st.tracked ∧
    (startPolling st k).diags = st.diags ∧
    (startPolling st k).pendingNotifs = st.pendingNotifs := by
  unfold startPolling
  cases kget st.intervalMap k <;> exact ⟨rfl, rfl, rfl⟩

theorem startPolling_timers1_facts (st : WatcherState) (k : DepKey)
    (h : TimerInv st) :
    ∃ timers1,
      (startPolling st k).timers = (k, st.nextId) :: timers1 ∧
      (∀ id, (k, id) ∉ timers1) ∧
      (∀ k' id, k' ≠ k → ((k', id) ∈ timers1 ↔ (k', id) ∈ st.timers)) ∧
      (∀ k', k' ≠ k → timers1.countP (fun t => decide (t.1 = k')) =
        st.timers.countP (fun t => decide (t.1 = k'))) := by
  unfold startPolling
  cases hmk : kget st.intervalMap k with
  | none =>
      refine ⟨st.timers, rfl, ?_, ?_, ?_⟩
      · intro id hmem
        rw [h.memTimers k id hmem] at hmk
        exact Option.noConfusion hmk
      · intro k' id _
        exact Iff.rfl
      · intro k' _
        rfl
  | some oldId =>
      have hcnt := h.keyCount k
      rw [hmk] at hcnt
      simp at hcnt
      have hmem : (k, oldId) ∈ st.timers := h.mapTimers k oldId hmk
      have himp : ∀ t : DepKey × Nat,
          (decide (t.1 = k ∧ t.2 = oldId)) = true →
          (decide (t.1 = k)) = true := by
        intro t ht
        simp at ht ⊢
        exact ht.1
      have hzero : (st.timers.eraseP
          (fun t => decide (t.1 = k ∧ t.2 = oldId))).countP
            (fun t => decide (t.1 = k)) = 0 := by
        rcases countP_eraseP_zero (fun t => decide (t.1 = k))
          (fun t => decide (t.1 = k ∧ t.2 = oldId)) st.timers
          (by omega) himp with h0 | heq
        · exact h0
        · exfalso
          have := List.eraseP_eq_self_iff.mp heq (k, oldId) hmem
          simp at this
      refine ⟨_, rfl, ?_, ?_, ?_⟩
      · intro id hmem2
        have hpos : 0 < (st.timers.eraseP
            (fun t => decide (t.1 = k ∧ t.2 = oldId))).countP
              (fun t => decide (t.1 = k)) :=
          List.countP_pos_iff.mpr ⟨(k, id), hmem2, by simp⟩
        omega
      · intro k' id hne
        apply List.mem_eraseP_of_neg
        simp
        intro hk
        exact absurd hk hne
      · intro k' hne
        apply countP_eraseP_of_disj
        intro t ht
        simp at ht ⊢
        rw [ht.1]
        intro hc
        exact absurd hc.symm hne

theorem startPolling_inv (st : WatcherState) (k : DepKey) (h : WInv st)
    (ti : TrackedInfo) (hti : kget st.tracked k = some ti)
    (hpoll : ti.status.isPolling = true) : WInv (startPolling st k) := by
  obtain ⟨timers1, htim, hk1, hmem1, hcnt1⟩ :=
    startPolling_timers1_facts st k ⟨h.memTimers, h.mapTimers, h.keyCount⟩
  have hmap : (startPolling st k).intervalMap =
      kset st.intervalMap k st.nextId := by
    unfold startPolling
    cases kget st.intervalMap k <;> rfl
  obtain ⟨htr, hdg, _⟩ := startPolling_fields st k
  refine ⟨?_, ?_, ?_, ?_, ?_⟩
  · intro k' id hmem2
    rw [htim] at hmem2
    rw [hmap]
    rcases List.mem_cons.mp hmem2 with heq | hintl
    · have h1 : k' = k := congrArg Prod.fst heq
      have h2 : id = st.nextId := congrArg Prod.snd heq
      subst h1; subst h2
      exact kget_kset_eq _ _ _
    · by_cases hkk : k' = k
      · subst hkk
        exact absurd hintl (hk1 id)
      · rw [kget_kset_ne _ _ _ _ hkk]
        exact h.memTimers k' id ((hmem1 k' id hkk).mp hintl)
  · intro k' id hget
    rw [hmap] at hget
    rw [htim]
    by_cases hkk : k' = k
    · subst hkk
      rw [kget_kset_eq] at hget
      obtain rfl : id = st.nextId := by
        injection hget with hh
        exact hh.symm
      exact List.mem_cons_self _ _
    · rw [kget_kset_ne _ _ _ _ hkk] at hget
      exact List.mem_cons_of_mem _
        ((hmem1 k' id hkk).mpr (h.mapTimers k' id hget))
  · intro k'
    rw [htim, hmap]
    by_cases hkk : k' = k
    · subst hkk
      rw [kget_kset_eq]
      have hk0 : timers1.countP (fun t => decide (t.1 = k')) = 0 := by
        by_contra hne
        have hpos : 0 < timers1.countP (fun t => decide (t.1 = k')) := by
          omega
        obtain ⟨a, hain, hpa⟩ := List.countP_pos_iff.mp hpos
        have : a.1 = k' := by simpa using hpa
        exact hk1 a.2 (by
          have : a = (k', a.2) := by
            cases a
            simp_all
          rw [this] at hain
          exact hain)
      rw [List.countP_cons_of_pos _ _ (by simp), hk0]
      simp
    · rw [kget_kset_ne _ _ _ _ hkk]
      rw [List.countP_cons_of_neg _ _ (by
        simp
        intro hc
        exact absurd hc.symm hkk)]
      rw [hcnt1 k' hkk]
      exact h.keyCount k'
  · intro k' hsome
    rw [htr]
    rw [hmap] at hsome
    by_cases hkk : k' = k
    · subst hkk
      exact ⟨ti, hti, hpoll⟩
    · rw [kget_kset_ne _ _ _ _ hkk] at hsome
      exact h.polledTracked k' hsome
  · rw [hdg]
    exact h.diagsUnique

theorem nonTerminal_isPolling (r : RespStatus)
    (h : r.nonTerminal = true) : r.toApproval.isPolling = true := by
  cases r <;> simp_all [RespStatus.nonTerminal, RespStatus.toApproval,
    ApprovalStatus.isPolling]

theorem hdr_state (st : WatcherState) (k : DepKey) (v : Option String)
    (res : CheckResponseM) (line : Nat) :
    (handleDependencyResponse st k v res line).1 =
      { st with
        diags := addDiagnostic st.diags k.path
          { name := k.name, version := v, status := res.status,
            message := res.message, line := line,
            reasonUrl := res.reasonUrl },
        pendingNotifs :=
          (showForStatus st.pendingNotifs k.name res.status).1 } := rfl

/-- The status-cache contents after the two writes of
`handleNewDependency` (`statusMap.set` and `dep.status = response.status`). -/
def newDepState (st : WatcherState) (k : DepKey) (version : Option String)
    (r : CheckResponseM) : WatcherState :=
  { st with
    tracked :=
      kset (kset st.tracked k ⟨version, ApprovalStatus.pending⟩)
        k ⟨version, r.status.toApproval⟩ }

/-- The status-cache contents after the write of `checkDependencyStatus`. -/
def tickState (st : WatcherState) (k : DepKey) (vers : Option String)
    (r : CheckResponseM) : WatcherState :=
  { st with tracked := kset st.tracked k ⟨vers, r.status.toApproval⟩ }

theorem step_newDep_none (st : WatcherState) (k : DepKey)
    (version : Option String) (line : Nat) :
    step st (.newDep k version none line) =
      ({ st with
          tracked := kset st.tracked k ⟨version, ApprovalStatus.pending⟩ },
       [.apiRequest k, .notifRequestError k.name]) := rfl

theorem step_newDep_some_nt (st : WatcherState) (k : DepKey)
    (version : Option String) (r : CheckResponseM) (line : Nat)
    (hnt : r.status.nonTerminal = true) :
    step st (.newDep k version (some r) line) =
      (startPolling (handleDependencyResponse (newDepState st k version r)
         k version r line).1 k,
       OutEvent.apiRequest k ::
         (handleDependencyResponse (newDepState st k version r)
           k version r line).2) := by
  simp only [step, hnt, newDepState]
  rfl

theorem step_newDep_some_term (st : WatcherState) (k : DepKey)
    (version : Option String) (r : CheckResponseM) (line : Nat)
    (hnt : r.status.nonTerminal = false) :
    step st (.newDep k version (some r) line) =
      ((handleDependencyResponse (newDepState st k version r)
         k version r line).1,
       OutEvent.apiRequest k ::
         (handleDependencyResponse (newDepState st k version r)
           k version r line).2) := by
  simp only [step, hnt, newDepState]
  rfl

theorem step_pollTick_none (st : WatcherState) (k : DepKey) (line : Nat) :
    step st (.pollTick k none line) = (st, [.apiCheck k]) := rfl

theorem step_pollTick_some_nt (st : WatcherState) (k : DepKey)
    (r : CheckResponseM) (line : Nat) (ti : TrackedInfo)
    (hti : kget st.tracked k = some ti)
    (hnt : r.status.nonTerminal = true) :
    step st (.pollTick k (some r) line) =
      ((handleDependencyResponse (tickState st k ti.version r)
         k ti.version r line).1,
       OutEvent.apiCheck k ::
         (handleDependencyResponse (tickState st k ti.version r)
           k ti.version r line).2) := by
  simp only [step, hti, hnt, tickState]
  rfl

theorem step_pollTick_some_term (st : WatcherState) (k : DepKey)
    (r : CheckResponseM) (line : Nat) (ti : TrackedInfo)
    (hti : kget st.tracked k = some ti)
    (hnt : r.status.nonTerminal = false) :
    step st (.pollTick k (some r) line) =
      (stopPolling (handleDependencyResponse (tickState st k ti.version r)
         k ti.version r line).1 k,
       OutEvent.apiCheck k ::
         (handleDependencyResponse (tickState st k ti.version r)
           k ti.version r line).2) := by
  simp only [step, hti, hnt, tickState]
  rfl

theorem step_pollTick_some_none_nt (st : WatcherState) (k : DepKey)
    (r : CheckResponseM) (line : Nat)
    (hket : kget st.tracked k = none)
    (hnt : r.status.nonTerminal = true) :
    step st (.pollTick k (some r) line) =
      ((handleDependencyResponse st k none r line).1,
       OutEvent.apiCheck k ::
         (handleDependencyResponse st k none r line).2) := by
  simp only [step, hket, hnt]
  rfl

theorem step_pollTick_some_none_term (st : WatcherState) (k : DepKey)
    (r : CheckResponseM) (line : Nat)
    (hket : kget st.tracked k = none)
    (hnt : r.status.nonTerminal = false) :
    step st (.pollTick k (some r) line) =
      (stopPolling (handleDependencyResponse st k none r line).1 k,
       OutEvent.apiCheck k ::
         (handleDependencyResponse st k none r line).2) := by
  simp only [step, hket, hnt]
  rfl

theorem step_removed_eq (st : WatcherState) (k : DepKey) (updateOk : Bool) :
    step st (.removed k updateOk) =
      ({ stopPolling st k with
          diags := removeDiagnostic (stopPolling st k).diags k.path k.name,
          tracked := kdel (stopPolling st k).tracked k },
       OutEvent.apiUpdateRemoved k ::
         (if updateOk then
            if (kget st.tracked k).map TrackedInfo.status =
                some ApprovalStatus.denied then
              [OutEvent.notifRemovalConfirmed k.name]
            else []
          else [])) := rfl

theorem step_fileDelete_eq (st : WatcherState) (path : String) :
    step st (.fileDelete path) =
      ({ st with
          tracked := st.tracked.filter (fun p => decide (p.1.path ≠ path)),
          diags := clearFile st.diags path },
       []) := rfl

theorem initWatcher_TimerInv : TimerInv initWatcher :=
  ⟨initWatcher_WInv.memTimers, initWatcher_WInv.mapTimers,
    initWatcher_WInv.keyCount⟩

theorem stopPolling_tinv (st : WatcherState) (k : DepKey)
    (h : TimerInv st) :
    TimerInv (stopPolling st k) ∧
    kget (stopPolling st k).intervalMap k = none ∧
    (∀ id, (k, id) ∉ (stopPolling st k).timers) := by
  unfold stopPolling
  cases hmk : kget st.intervalMap k with
  | none =>
      simp only []
      have hnok : ∀ id, (k, id) ∉ st.timers := by
        intro id hmem
        rw [h.memTimers k id hmem] at hmk
        exact Option.noConfusion hmk
      exact ⟨⟨h.memTimers, h.mapTimers, h.keyCount⟩, hmk, hnok⟩
  | some oldId =>
      simp only []
      have hcnt := h.keyCount k
      rw [hmk] at hcnt
      simp at hcnt
      have hmem : (k, oldId) ∈ st.timers := h.mapTimers k oldId hmk
      have himp : ∀ t : DepKey × Nat,
          (decide (t.1 = k ∧ t.2 = oldId)) = true →
          (decide (t.1 = k)) = true := by
        intro t ht
        simp at ht ⊢
        exact ht.1
      have hzero : (st.timers.eraseP
          (fun t => decide (t.1 = k ∧ t.2 = oldId))).countP
            (fun t => decide (t.1 = k)) = 0 := by
        rcases countP_eraseP_zero (fun t => decide (t.1 = k))
          (fun t => decide (t.1 = k ∧ t.2 = oldId)) st.timers
          (by omega) himp with h0 | heq
        · exact h0
        · exfalso
          have := List.eraseP_eq_self_iff.mp heq (k, oldId) hmem
          simp at this
      have hknot : ∀ id, (k, id) ∉
          st.timers.eraseP (fun t => decide (t.1 = k ∧ t.2 = oldId)) := by
        intro id hmem2
        have hpos : 0 < (st.timers.eraseP
            (fun t => decide (t.1 = k ∧ t.2 = oldId))).countP
              (fun t => decide (t.1 = k)) :=
          List.countP_pos_iff.mpr ⟨(k, id), hmem2, by simp⟩
        omega
      refine ⟨⟨?_, ?_, ?_⟩, kget_kdel_self _ _, hknot⟩
      · intro k' id hmem2
        have hin : (k', id) ∈ st.timers := List.mem_of_mem_eraseP hmem2
        have hne : k' ≠ k := by
          intro hkk
          subst hkk
          exact hknot id hmem2
        rw [kget_kdel_ne _ _ _ hne]
        exact h.memTimers k' id hin
      · intro k' id hget
        have hne : k' ≠ k := by
          intro hkk
          subst hkk
          rw [kget_kdel_self] at hget
          exact Option.noConfusion hget
        rw [kget_kdel_ne _ _ _ hne] at hget
        have hin := h.mapTimers k' id hget
        rw [List.mem_eraseP_of_neg]
        · exact hin
        · simp
          intro hk
          exact absurd hk hne
      · intro k'
        by_cases hkk : k' = k
        · subst hkk
          rw [kget_kdel_self, hzero]
          rfl
        · rw [kget_kdel_ne _ _ _ hkk]
          rw [countP_eraseP_of_disj]
          · exact h.keyCount k'
          · intro t ht
            simp at ht ⊢
            rw [ht.1]
            intro hc
            exact absurd hc.symm hkk

theorem startPolling_tinv (st : WatcherState) (k : DepKey)
    (h : TimerInv st) : TimerInv (startPolling st k) := by
  obtain ⟨timers1, htim, hk1, hmem1, hcnt1⟩ :=
    startPolling_timers1_facts st k h
  have hmap : (startPolling st k).intervalMap =
      kset st.intervalMap k st.nextId := by
    unfold startPolling
    cases kget st.intervalMap k <;> rfl
  refine ⟨?_, ?_, ?_⟩
  · intro k' id hmem2
    rw [htim] at hmem2
    rw [hmap]
    rcases List.mem_cons.mp hmem2 with heq | hintl
    · have h1 : k' = k := congrArg Prod.fst heq
      have h2 : id = st.nextId := congrArg Prod.snd heq
      subst h1; subst h2
      exact kget_kset_eq _ _ _
    · by_cases hkk : k' = k
      · subst hkk
        exact absurd hintl (hk1 id)
      · rw [kget_kset_ne _ _ _ _ hkk]
        exact h.memTimers k' id ((hmem1 k' id hkk).mp hintl)
  · intro k' id hget
    rw [hmap] at hget
    rw [htim]
    by_cases hkk : k' = k
    · subst hkk
      rw [kget_kset_eq] at hget
      obtain rfl : id = st.nextId := by
        injection hget with hh
        exact hh.symm
      exact List.mem_cons_self _ _
    · rw [kget_kset_ne _ _ _ _ hkk] at hget
      exact List.mem_cons_of_mem _
        ((hmem1 k' id hkk).mpr (h.mapTimers k' id hget))
  · intro k'
    rw [htim, hmap]
    by_cases hkk : k' = k
    · subst hkk
      rw [kget_kset_eq]
      have hk0 : timers1.countP (fun t => decide (t.1 = k')) = 0 := by
        by_contra hne
        have hpos : 0 < timers1.countP (fun t => decide (t.1 = k')) := by
          omega
        obtain ⟨a, hain, hpa⟩ := List.countP_pos_iff.mp hpos
        have : a.1 = k' := by simpa using hpa
        exact hk1 a.2 (by
          have : a = (k', a.2) := by
            cases a
            simp_all
          rw [this] at hain
          exact hain)
      rw [List.countP_cons_of_pos _ _ (by simp), hk0]
      simp
    · rw [kget_kset_ne _ _ _ _ hkk]
      rw [List.countP_cons_of_neg _ _ (by
        simp
        intro hc
        exact absurd hc.symm hkk)]
      rw [hcnt1 k' hkk]
      exact h.keyCount k'

theorem step_tinv (st : WatcherState) (e : WEvent) (h : TimerInv st) :
    TimerInv (step st e).1 := by
  cases e with
  | newDep k version res line =>
      cases res with
      | none =>
          rw [step_newDep_none]
          exact ⟨h.memTimers, h.mapTimers, h.keyCount⟩
      | some r =>
          by_cases hnt : r.status.nonTerminal = true
          · rw [step_newDep_some_nt st k version r line hnt]
            exact startPolling_tinv _ k
              ⟨h.memTimers, h.mapTimers, h.keyCount⟩
          · have hnt' : r.status.nonTerminal = false := by simpa using hnt
            rw [step_newDep_some_term st k version r line hnt']
            exact ⟨h.memTimers, h.mapTimers, h.keyCount⟩
  | pollTick k res line =>
      cases res with
      | none => exact h
      | some r =>
          cases hket : kget st.tracked k with
          | some ti =>
              by_cases hnt : r.status.nonTerminal = true
              · rw [step_pollTick_some_nt st k r line ti hket hnt]
                exact ⟨h.memTimers, h.mapTimers, h.keyCount⟩
              · have hnt' : r.status.nonTerminal = false := by simpa using hnt
                rw [step_pollTick_some_term st k r line ti hket hnt']
                exact (stopPolling_tinv
                  ((handleDependencyResponse (tickState st k ti.version r)
                    k ti.version r line).1) k
                  ⟨h.memTimers, h.mapTimers, h.keyCount⟩).1
          | none =>
              by_cases hnt : r.status.nonTerminal = true
              · rw [step_pollTick_some_none_nt st k r line hket hnt]
                exact ⟨h.memTimers, h.mapTimers, h.keyCount⟩
              · have hnt' : r.status.nonTerminal = false := by simpa using hnt
                rw [step_pollTick_some_none_term st k r line hket hnt']
                exact (stopPolling_tinv
                  ((handleDependencyResponse st k none r line).1) k
                  ⟨h.memTimers, h.mapTimers, h.keyCount⟩).1
  | removed k updateOk =>
      rw [step_removed_eq]
      have ht := (stopPolling_tinv st k h).1
      exact ⟨ht.memTimers, ht.mapTimers, ht.keyCount⟩
  | fileDelete path =>
      rw [step_fileDelete_eq]
      exact ⟨h.memTimers, h.mapTimers, h.keyCount⟩

theorem runW_tinv (evts : List WEvent) :
    ∀ st : WatcherState, TimerInv st → TimerInv (runW st evts).1 := by
  induction evts with
  | nil =>
      intro st h
      simpa [runW] using h
  | cons e t ih =>
      intro st h
      have h1 := step_tinv st e h
      have h2 := ih (step st e).1 h1
      simpa [runW] using h2

theorem step_WInv (st : WatcherState) (e : WEvent) (h : WInv st)
    (hv : validWEventB st e = true) (hnf : isFileDelete e = false) :
    WInv (step st e).1 := by
  cases e with
  | newDep k version res line =>
      have hvn : kget st.tracked k = none := by
        simpa [validWEventB, Option.isNone_iff_eq_none] using hv
      have hnopoll : ¬ (kget st.intervalMap k).isSome = true := by
        intro hc
        obtain ⟨ti, hti, _⟩ := h.polledTracked k hc
        rw [hvn] at hti
        exact Option.noConfusion hti
      cases res with
      | none =>
          rw [step_newDep_none]
          refine ⟨h.memTimers, h.mapTimers, h.keyCount, ?_, h.diagsUnique⟩
          intro k'' hs
          have hne : k'' ≠ k := by
            intro heq
            subst heq
            exact hnopoll hs
          obtain ⟨ti, hti, hp⟩ := h.polledTracked k'' hs
          refine ⟨ti, ?_, hp⟩
          show kget (kset st.tracked k ⟨version, ApprovalStatus.pending⟩) k''
            = some ti
          rw [kget_kset_ne _ _ _ _ hne]
          exact hti
      | some r =>
          have hInvSe : WInv (handleDependencyResponse
              (newDepState st k version r) k version r line).1 := by
            rw [hdr_state]
            refine ⟨h.memTimers, h.mapTimers, h.keyCount, ?_, ?_⟩
            · intro k'' hs
              have hne : k'' ≠ k := by
                intro heq
                subst heq
                exact hnopoll hs
              obtain ⟨ti, hti, hp⟩ := h.polledTracked k'' hs
              refine ⟨ti, ?_, hp⟩
              show kget (newDepState st k version r).tracked k'' = some ti
              rw [newDepState]
              show kget (kset (kset st.tracked k
                ⟨version, ApprovalStatus.pending⟩)
                k ⟨version, r.status.toApproval⟩) k'' = some ti
              rw [kget_kset_ne _ _ _ _ hne, kget_kset_ne _ _ _ _ hne]
              exact hti
            · exact diagUnique_add _ _ _ h.diagsUnique
          by_cases hnt : r.status.nonTerminal = true
          · rw [step_newDep_some_nt st k version r line hnt]
            apply startPolling_inv _ _ hInvSe
              ⟨version, r.status.toApproval⟩
            · rw [hdr_state]
              show kget (newDepState st k version r).tracked k =
                some ⟨version, r.status.toApproval⟩
              rw [newDepState]
              exact kget_kset_eq _ _ _
            · exact nonTerminal_isPolling r.status hnt
          · rw [step_newDep_some_term st k version r line
              (Bool.not_eq_true _ ▸ hnt)]
            exact hInvSe
  | pollTick k res line =>
      cases res with
      | none => exact h
      | some r =>
          have hany : st.timers.any (fun t => decide (t.1 = k)) = true := by
            simpa [validWEventB] using hv
          have hsome : (kget st.intervalMap k).isSome = true := by
            obtain ⟨t, htin, hpk⟩ := List.any_eq_true.mp hany
            have hk : t.1 = k := by simpa using hpk
            have hmem : (t.1, t.2) ∈ st.timers := by
              cases t
              exact htin
            rw [hk] at hmem
            rw [h.memTimers k t.2 hmem]
            rfl
          obtain ⟨ti, hti, hpol⟩ := h.polledTracked k hsome
          by_cases hnt : r.status.nonTerminal = true
          · rw [step_pollTick_some_nt st k r line ti hti hnt]
            rw [hdr_state]
            refine ⟨h.memTimers, h.mapTimers, h.keyCount, ?_, ?_⟩
            · intro k'' hs
              by_cases hkk : k'' = k
              · subst hkk
                refine ⟨⟨ti.version, r.status.toApproval⟩, ?_, ?_⟩
                · show kget (tickState st k'' ti.version r).tracked k'' =
                    some ⟨ti.version, r.status.toApproval⟩
                  rw [tickState]
                  exact kget_kset_eq _ _ _
                · exact nonTerminal_isPolling r.status hnt
              · obtain ⟨ti', hti', hp'⟩ := h.polledTracked k'' hs
                refine ⟨ti', ?_, hp'⟩
                show kget (tickState st k ti.version r).tracked k'' = some ti'
                rw [tickState]
                show kget (kset st.tracked k ⟨ti.version, r.status.toApproval⟩)
                  k'' = some ti'
                rw [kget_kset_ne _ _ _ _ hkk]
                exact hti'
            · exact diagUnique_add _ _ _ h.diagsUnique
          · rw [step_pollTick_some_term st k r line ti hti
              (Bool.not_eq_true _ ▸ hnt)]
            refine (stopPolling_inv _ _ ?_ ?_ ?_ ?_ ?_).1
            · rw [hdr_state]
              exact h.memTimers
            · rw [hdr_state]
              exact h.mapTimers
            · rw [hdr_state]
              exact h.keyCount
            · rw [hdr_state]
              intro k' hne hs
              obtain ⟨ti', hti', hp'⟩ := h.polledTracked k' hs
              refine ⟨ti', ?_, hp'⟩
              show kget (tickState st k ti.version r).tracked k' = some ti'
              rw [tickState]
              show kget (kset st.tracked k ⟨ti.version, r.status.toApproval⟩)
                k' = some ti'
              rw [kget_kset_ne _ _ _ _ hne]
              exact hti'
            · rw [hdr_state]
              exact diagUnique_add _ _ _ h.diagsUnique
  | removed k updateOk =>
      obtain ⟨hinv1, hmapnone, hnot⟩ := stopPolling_inv st k h.memTimers
        h.mapTimers h.keyCount (fun k' _ hs => h.polledTracked k' hs)
        h.diagsUnique
      rw [step_removed_eq]
      refine ⟨hinv1.memTimers, hinv1.mapTimers, hinv1.keyCount, ?_, ?_⟩
      · intro k'' hs
        by_cases hkk : k'' = k
        · subst hkk
          rw [show kget ({ stopPolling st k'' with
              diags := removeDiagnostic (stopPolling st k'').diags
                k''.path k''.name,
              tracked := kdel (stopPolling st k'').tracked k''
              : WatcherState }).intervalMap k'' =
              kget (stopPolling st k'').intervalMap k'' from rfl,
            hmapnone] at hs
          exact absurd hs (by simp)
        · obtain ⟨ti, hti, hp⟩ := hinv1.polledTracked k'' hs
          refine ⟨ti, ?_, hp⟩
          show kget (kdel (stopPolling st k).tracked k) k'' = some ti
          rw [kget_kdel_ne _ _ _ hkk]
          exact hti
      · exact diagUnique_remove _ _ _ hinv1.diagsUnique
  | fileDelete path =>
      simp [isFileDelete] at hnf

theorem runW_WInv (evts : List WEvent) (st : WatcherState) (h : WInv st)
    (hv : validSeqB st evts = true)
    (hnf : ∀ e ∈ evts, isFileDelete e = false) : WInv (runW st evts).1 := by
  induction evts generalizing st with
  | nil => simpa [runW] using h
  | cons e t ih =>
      have hv1 : validWEventB st e = true ∧
          validSeqB (step st e).1 t = true := by
        simpa [validSeqB, Bool.and_eq_true] using hv
      have h1 := step_WInv st e h hv1.1 (hnf e (List.mem_cons_self _ _))
      have h2 := ih (step st e).1 h1 hv1.2
        (fun e' he' => hnf e' (List.mem_cons_of_mem _ he'))
      simpa [runW] using h2

/-- C1 (amended): along every deliverable event sequence — manifest
file deletions included — at most one live poll timer exists per
(manifest path, dependency name) key.  In runs that contain no
file-deletion event, a live poll timer moreover implies its key is
tracked with a status in {pending, scanning, not_found}.  The spec's
full "iff" fails in both directions on the source (see the
counterexample): after the error branch of the initial submission the
dependency stays tracked with its initial non-terminal status `pending`
but no poll task is started, and after a manifest file deletion the
file's poll tasks keep running although their dependencies are no
longer tracked (`handleFileDelete` clears `statusCache` but not
`pollingIntervals`). -/
theorem watcher_poll_invariant (evts : List WEvent)
    (hv : validSeqB initWatcher evts = true) :
    (∀ k, (runW initWatcher evts).1.timers.countP
      (fun t => decide (t.1 = k)) ≤ 1) ∧
    ((∀ e ∈ evts, isFileDelete e = false) →
      ∀ k id, (k, id) ∈ (runW initWatcher evts).1.timers →
        (kget (runW initWatcher evts).1.tracked k).map
          (fun ti => ti.status.isPolling) = some true) := by
  constructor
  · intro k
    have htinv := runW_tinv evts initWatcher initWatcher_TimerInv
    rw [htinv.keyCount k]
    by_cases hs : (kget (runW initWatcher evts).1.intervalMap k).isSome = true
    · rw [if_pos hs]
    · rw [if_neg hs]
      omega
  · intro hnf k id hmem
    have hinv := runW_WInv evts initWatcher initWatcher_WInv hv hnf
    have hmap := hinv.memTimers k id hmem
    obtain ⟨ti, hti, hp⟩ := hinv.polledTracked k (by rw [hmap]; rfl)
    rw [hti]
    simp [hp]

/-- Witness for `watcher_poll_invariant`: after a run that leaves one
dependency polling, its key has at most one live timer and is tracked
with a non-terminal status. -/
theorem watcher_poll_invariant_witness :
    ((runW initWatcher
      [WEvent.newDep ⟨"build.gradle", "lodash"⟩ (some "4.17.21")
        (some ⟨RespStatus.pending, "queued for review", none⟩) 0]).1.timers.countP
      (fun t => decide (t.1 = (⟨"build.gradle", "lodash"⟩ : DepKey))) ≤ 1) ∧
    (kget (runW initWatcher
      [WEvent.newDep ⟨"build.gradle", "lodash"⟩ (some "4.17.21")
        (some ⟨RespStatus.pending, "queued for review", none⟩) 0]).1.tracked
      ⟨"build.gradle", "lodash"⟩).map
        (fun ti => ti.status.isPolling) = some true :=
  ⟨(watcher_poll_invariant
      [WEvent.newDep ⟨"build.gradle", "lodash"⟩ (some "4.17.21")
        (some ⟨RespStatus.pending, "queued for review", none⟩) 0]
      (by decide)).1 ⟨"build.gradle", "lodash"⟩,
   (watcher_poll_invariant
      [WEvent.newDep ⟨"build.gradle", "lodash"⟩ (some "4.17.21")
        (some ⟨RespStatus.pending, "queued for review", none⟩) 0]
      (by decide)).2 (by decide) ⟨"build.gradle", "lodash"⟩ 0 (by decide)⟩

/-- A user notification for a non-terminal status of `name`. -/
def isNonTermNotif (name : String) : OutEvent → Bool
  | .notifPending n => n == name
  | .notifScanning n => n == name
  | .notifNotFound n => n == name
  | _ => false

/-- A user notification for a terminal verdict on `name`. -/
def isTermNotif (name : String) : OutEvent → Bool
  | .notifApproved n => n == name
  | .notifDenied n => n == name
  | _ => false

/-- An event that processes a terminal-status response for `name`. -/
def isTermResponse (name : String) : WEvent → Bool
  | .newDep k _ (some r) _ => k.name == name && !r.status.nonTerminal
  | .pollTick k (some r) _ => k.name == name && !r.status.nonTerminal
  | _ => false

/-- An event whose processing calls `stopPolling` for a key named
`name`, clearing the `pendingNotifications` entry. -/
def clearsNotif (name : String) : WEvent → Bool
  | .pollTick k (some r) _ => k.name == name && !r.status.nonTerminal
  | .removed k _ => k.name == name
  | _ => false

theorem showForStatus_count (pn : List String) (name kname : String)
    (r : RespStatus) :
    (showForStatus pn kname r).2.countP (isNonTermNotif name) =
      (if kname = name ∧ r.nonTerminal = true ∧ kname ∉ pn then 1 else 0) := by
  by_cases hn : kname = name
  · subst hn
    cases r <;> by_cases hk : kname ∈ pn <;>
      simp [showForStatus, isNonTermNotif, RespStatus.nonTerminal, hk]
  · cases r <;> by_cases hk : kname ∈ pn <;>
      simp [showForStatus, isNonTermNotif, RespStatus.nonTerminal, hk, hn]

theorem showForStatus_mem (pn : List String) (name kname : String)
    (r : RespStatus) :
    (name ∈ (showForStatus pn kname r).1 ↔
      name ∈ pn ∨ (kname = name ∧ r.nonTerminal = true ∧ kname ∉ pn)) := by
  by_cases hn : kname = name
  · subst hn
    cases r <;> by_cases hk : kname ∈ pn <;>
      simp [showForStatus, RespStatus.nonTerminal, hk]
  · cases r <;> by_cases hk : kname ∈ pn <;>
      simp [showForStatus, RespStatus.nonTerminal, hk, hn] <;>
      exact fun hc => absurd hc.symm hn

theorem showForStatus_term_count (pn : List String) (name kname : String)
    (r : RespStatus) :
    (showForStatus pn kname r).2.countP (isTermNotif name) =
      (if kname = name ∧ r.nonTerminal = false then 1 else 0) := by
  by_cases hn : kname = name
  · subst hn
    cases r <;> by_cases hk : kname ∈ pn <;>
      simp [showForStatus, isTermNotif, RespStatus.nonTerminal, hk]
  · cases r <;> by_cases hk : kname ∈ pn <;>
      simp [showForStatus, isTermNotif, RespStatus.nonTerminal, hk, hn]

theorem stopPolling_pn (st : WatcherState) (k : DepKey) :
    (stopPolling st k).pendingNotifs = st.pendingNotifs.erase k.name := by
  unfold stopPolling
  cases kget st.intervalMap k <;> rfl

theorem hdr_out (st : WatcherState) (k : DepKey) (v : Option String)
    (res : CheckResponseM) (line : Nat) :
    (handleDependencyResponse st k v res line).2 =
      (showForStatus st.pendingNotifs k.name res.status).2 := rfl

theorem hdr_pn (st : WatcherState) (k : DepKey) (v : Option String)
    (res : CheckResponseM) (line : Nat) :
    (handleDependencyResponse st k v res line).1.pendingNotifs =
      (showForStatus st.pendingNotifs k.name res.status).1 := rfl

theorem showForStatus_pn_term (pn : List String) (kname : String)
    (r : RespStatus) (hnt : r.nonTerminal = false) :
    (showForStatus pn kname r).1 = pn := by
  cases r <;> simp_all [showForStatus, RespStatus.nonTerminal]

theorem step_termNotif_count (st : WatcherState) (e : WEvent)
    (name : String) :
    (step st e).2.countP (isTermNotif name) =
      (if isTermResponse name e = true then 1 else 0) := by
  cases e with
  | newDep k version res line =>
      cases res with
      | none =>
          rw [step_newDep_none]
          simp [isTermNotif, isTermResponse]
      | some r =>
          by_cases hnt : r.status.nonTerminal = true
          · rw [step_newDep_some_nt st k version r line hnt]
            simp only [hdr_out, List.countP_cons, showForStatus_term_count]
            simp [isTermNotif, isTermResponse, hnt]
          · have hnt' : r.status.nonTerminal = false := by
              simpa using hnt
            rw [step_newDep_some_term st k version r line hnt']
            simp only [hdr_out, List.countP_cons, showForStatus_term_count]
            by_cases hkn : k.name = name <;>
              simp [isTermNotif, isTermResponse, hnt', hkn, newDepState]
  | pollTick k res line =>
      cases res with
      | none =>
          rw [step_pollTick_none]
          simp [isTermNotif, isTermResponse]
      | some r =>
          cases hket : kget st.tracked k with
          | some ti =>
              by_cases hnt : r.status.nonTerminal = true
              · rw [step_pollTick_some_nt st k r line ti hket hnt]
                simp only [hdr_out, List.countP_cons,
                  showForStatus_term_count]
                simp [isTermNotif, isTermResponse, hnt, tickState]
              · have hnt' : r.status.nonTerminal = false := by
                  simpa using hnt
                rw [step_pollTick_some_term st k r line ti hket hnt']
                simp only [hdr_out, List.countP_cons,
                  showForStatus_term_count]
                by_cases hkn : k.name = name <;>
                  simp [isTermNotif, isTermResponse, hnt', hkn, tickState]
          | none =>
              by_cases hnt : r.status.nonTerminal = true
              · rw [step_pollTick_some_none_nt st k r line hket hnt]
                simp only [hdr_out, List.countP_cons,
                  showForStatus_term_count]
                simp [isTermNotif, isTermResponse, hnt]
              · have hnt' : r.status.nonTerminal = false := by
                  simpa using hnt
                rw [step_pollTick_some_none_term st k r line hket hnt']
                simp only [hdr_out, List.countP_cons,
                  showForStatus_term_count]
                by_cases hkn : k.name = name <;>
                  simp [isTermNotif, isTermResponse, hnt', hkn]
  | removed k updateOk =>
      rw [step_removed_eq]
      have h0 : isTermResponse name (WEvent.removed k updateOk) = false := rfl
      rw [h0]
      simp only [List.countP_cons]
      have h1 : isTermNotif name (OutEvent.apiUpdateRemoved k) = false := rfl
      rw [h1]
      cases updateOk with
      | false => simp [isTermNotif]
      | true =>
          simp [isTermNotif]
          intro a x _ _ ha
          subst ha
          rfl
  | fileDelete path =>
      rw [step_fileDelete_eq]
      simp [isTermResponse]

theorem showForStatus_nonterm_cases (pn : List String) (name kname : String)
    (r : RespStatus) :
    (name ∈ pn →
      (showForStatus pn kname r).2.countP (isNonTermNotif name) = 0 ∧
      name ∈ (showForStatus pn kname r).1) ∧
    (name ∉ pn →
      ((showForStatus pn kname r).2.countP (isNonTermNotif name) = 0 ∧
        name ∉ (showForStatus pn kname r).1) ∨
      ((showForStatus pn kname r).2.countP (isNonTermNotif name) = 1 ∧
        name ∈ (showForStatus pn kname r).1)) := by
  constructor
  · intro hm
    constructor
    · rw [showForStatus_count]
      rw [if_neg]
      rintro ⟨h1, _, h3⟩
      exact h3 (h1 ▸ hm)
    · rw [showForStatus_mem]
      exact Or.inl hm
  · intro hm
    by_cases hcond : kname = name ∧ r.nonTerminal = true ∧ kname ∉ pn
    · right
      refine ⟨?_, ?_⟩
      · rw [showForStatus_count, if_pos hcond]
      · rw [showForStatus_mem]
        exact Or.inr hcond
    · left
      refine ⟨?_, ?_⟩
      · rw [showForStatus_count, if_neg hcond]
      · rw [showForStatus_mem]
        rintro (h | h)
        · exact hm h
        · exact hcond h

theorem step_nonterm (st : WatcherState) (e : WEvent) (name : String)
    (hcl : clearsNotif name e = false) :
    (name ∈ st.pendingNotifs →
      (step st e).2.countP (isNonTermNotif name) = 0 ∧
      name ∈ (step st e).1.pendingNotifs) ∧
    (name ∉ st.pendingNotifs →
      ((step st e).2.countP (isNonTermNotif name) = 0 ∧
        name ∉ (step st e).1.pendingNotifs) ∨
      ((step st e).2.countP (isNonTermNotif name) = 1 ∧
        name ∈ (step st e).1.pendingNotifs)) := by
  cases e with
  | newDep k version res line =>
      cases res with
      | none =>
          rw [step_newDep_none]
          constructor
          · intro hm
            exact ⟨by simp [isNonTermNotif], hm⟩
          · intro hm
            left
            exact ⟨by simp [isNonTermNotif], hm⟩
      | some r =>
          have key := showForStatus_nonterm_cases st.pendingNotifs name
            k.name r.status
          by_cases hnt : r.status.nonTerminal = true
          · rw [step_newDep_some_nt st k version r line hnt]
            have hpn : (startPolling (handleDependencyResponse
                (newDepState st k version r) k version r line).1 k).pendingNotifs
                = (showForStatus st.pendingNotifs k.name r.status).1 := by
              rw [(startPolling_fields _ _).2.2, hdr_pn]
              rfl
            have hout : (OutEvent.apiRequest k ::
                (handleDependencyResponse (newDepState st k version r)
                  k version r line).2).countP (isNonTermNotif name) =
                (showForStatus st.pendingNotifs k.name r.status).2.countP
                  (isNonTermNotif name) := by
              rw [hdr_out]
              rw [List.countP_cons_of_neg _ _ (by simp [isNonTermNotif])]
              rfl
            constructor
            · intro hm
              exact ⟨by rw [hout]; exact (key.1 hm).1,
                by rw [hpn]; exact (key.1 hm).2⟩
            · intro hm
              rcases key.2 hm with ⟨h1, h2⟩ | ⟨h1, h2⟩
              · left
                exact ⟨by rw [hout]; exact h1, by rw [hpn]; exact h2⟩
              · right
                exact ⟨by rw [hout]; exact h1, by rw [hpn]; exact h2⟩
          · have hnt' : r.status.nonTerminal = false := by simpa using hnt
            rw [step_newDep_some_term st k version r line hnt']
            have hpn : (handleDependencyResponse (newDepState st k version r)
                k version r line).1.pendingNotifs = st.pendingNotifs := by
              rw [hdr_pn, showForStatus_pn_term _ _ _ hnt']
              rfl
            have hout : (OutEvent.apiRequest k ::
                (handleDependencyResponse (newDepState st k version r)
                  k version r line).2).countP (isNonTermNotif name) = 0 := by
              rw [hdr_out]
              rw [List.countP_cons_of_neg _ _ (by simp [isNonTermNotif])]
              rw [showForStatus_count]
              rw [if_neg]
              rintro ⟨_, h2, _⟩
              rw [hnt'] at h2
              exact Bool.false_ne_true h2
            constructor
            · intro hm
              exact ⟨hout, by rw [hpn]; exact hm⟩
            · intro hm
              left
              exact ⟨hout, by rw [hpn]; exact hm⟩
  | pollTick k res line =>
      cases res with
      | none =>
          rw [step_pollTick_none]
          constructor
          · intro hm
            exact ⟨by simp [isNonTermNotif], hm⟩
          · intro hm
            left
            exact ⟨by simp [isNonTermNotif], hm⟩
      | some r =>
          have key := showForStatus_nonterm_cases st.pendingNotifs name
            k.name r.status
          by_cases hnt : r.status.nonTerminal = true
          · -- non-terminal tick: no stopPolling
            have hform : ∀ stm : WatcherState × List OutEvent,
                stm.1.pendingNotifs =
                  (showForStatus st.pendingNotifs k.name r.status).1 →
                stm.2.countP (isNonTermNotif name) =
                  (showForStatus st.pendingNotifs k.name r.status).2.countP
                    (isNonTermNotif name) →
                (name ∈ st.pendingNotifs →
                  stm.2.countP (isNonTermNotif name) = 0 ∧
                  name ∈ stm.1.pendingNotifs) ∧
                (name ∉ st.pendingNotifs →
                  (stm.2.countP (isNonTermNotif name) = 0 ∧
                    name ∉ stm.1.pendingNotifs) ∨
                  (stm.2.countP (isNonTermNotif name) = 1 ∧
                    name ∈ stm.1.pendingNotifs)) := by
              intro stm hpn hout
              constructor
              · intro hm
                exact ⟨by rw [hout]; exact (key.1 hm).1,
                  by rw [hpn]; exact (key.1 hm).2⟩
              · intro hm
                rcases key.2 hm with ⟨h1, h2⟩ | ⟨h1, h2⟩
                · left
                  exact ⟨by rw [hout]; exact h1, by rw [hpn]; exact h2⟩
                · right
                  exact ⟨by rw [hout]; exact h1, by rw [hpn]; exact h2⟩
            cases hket : kget st.tracked k with
            | some ti =>
                rw [step_pollTick_some_nt st k r line ti hket hnt]
                apply hform
                · rw [hdr_pn]
                  rfl
                · rw [hdr_out]
                  rw [List.countP_cons_of_neg _ _ (by simp [isNonTermNotif])]
                  rfl
            | none =>
                rw [step_pollTick_some_none_nt st k r line hket hnt]
                apply hform
                · rw [hdr_pn]
                · rw [hdr_out]
                  rw [List.countP_cons_of_neg _ _ (by simp [isNonTermNotif])]
          · -- terminal tick: stopPolling erases k.name, with k.name ≠ name
            have hnt' : r.status.nonTerminal = false := by simpa using hnt
            have hkn : k.name ≠ name := by
              simp [clearsNotif, hnt'] at hcl
              exact hcl
            have hform : ∀ stm : WatcherState × List OutEvent,
                stm.1.pendingNotifs = st.pendingNotifs.erase k.name →
                stm.2.countP (isNonTermNotif name) = 0 →
                (name ∈ st.pendingNotifs →
                  stm.2.countP (isNonTermNotif name) = 0 ∧
                  name ∈ stm.1.pendingNotifs) ∧
                (name ∉ st.pendingNotifs →
                  (stm.2.countP (isNonTermNotif name) = 0 ∧
                    name ∉ stm.1.pendingNotifs) ∨
                  (stm.2.countP (isNonTermNotif name) = 1 ∧
                    name ∈ stm.1.pendingNotifs)) := by
              intro stm hpn hout
              constructor
              · intro hm
                refine ⟨hout, ?_⟩
                rw [hpn]
                exact (List.mem_erase_of_ne (Ne.symm hkn)).mpr hm
              · intro hm
                left
                refine ⟨hout, ?_⟩
                rw [hpn]
                intro hc
                exact hm ((List.mem_erase_of_ne (Ne.symm hkn)).mp hc)
            have hcount0 : (showForStatus st.pendingNotifs k.name
                r.status).2.countP (isNonTermNotif name) = 0 := by
              rw [showForStatus_count]
              rw [if_neg]
              rintro ⟨_, h2, _⟩
              rw [hnt'] at h2
              exact Bool.false_ne_true h2
            cases hket : kget st.tracked k with
            | some ti =>
                rw [step_pollTick_some_term st k r line ti hket hnt']
                apply hform
                · rw [stopPolling_pn, hdr_pn, showForStatus_pn_term _ _ _ hnt']
                  rfl
                · rw [hdr_out]
                  rw [List.countP_cons_of_neg _ _ (by simp [isNonTermNotif])]
                  exact hcount0
            | none =>
                rw [step_pollTick_some_none_term st k r line hket hnt']
                apply hform
                · rw [stopPolling_pn, hdr_pn, showForStatus_pn_term _ _ _ hnt']
                · rw [hdr_out]
                  rw [List.countP_cons_of_neg _ _ (by simp [isNonTermNotif])]
                  exact hcount0
  | removed k updateOk =>
      have hkn : k.name ≠ name := by
        simp [clearsNotif] at hcl
        exact hcl
      rw [step_removed_eq]
      have hpn : ({ stopPolling st k with
          diags := removeDiagnostic (stopPolling st k).diags k.path k.name,
          tracked := kdel (stopPolling st k).tracked k
          : WatcherState }).pendingNotifs =
          st.pendingNotifs.erase k.name := by
        show (stopPolling st k).pendingNotifs = st.pendingNotifs.erase k.name
        exact stopPolling_pn st k
      have hout : (OutEvent.apiUpdateRemoved k ::
          (if updateOk = true then
            if (kget st.tracked k).map TrackedInfo.status =
                some ApprovalStatus.denied then
              [OutEvent.notifRemovalConfirmed k.name]
            else []
          else [])).countP (isNonTermNotif name) = 0 := by
        rw [List.countP_cons_of_neg _ _ (by simp [isNonTermNotif])]
        cases updateOk with
        | false => rfl
        | true =>
            by_cases hd : (kget st.tracked k).map TrackedInfo.status =
                some ApprovalStatus.denied
            · rw [if_pos rfl, if_pos hd]
              rfl
            · rw [if_pos rfl, if_neg hd]
              rfl
      constructor
      · intro hm
        refine ⟨hout, ?_⟩
        rw [hpn]
        exact (List.mem_erase_of_ne (Ne.symm hkn)).mpr hm
      · intro hm
        left
        refine ⟨hout, ?_⟩
        rw [hpn]
        intro hc
        exact hm ((List.mem_erase_of_ne (Ne.symm hkn)).mp hc)
  | fileDelete path =>
      rw [step_fileDelete_eq]
      constructor
      · intro hm
        exact ⟨rfl, hm⟩
      · intro hm
        left
        exact ⟨rfl, hm⟩

theorem runW_out_cons (st : WatcherState) (e : WEvent) (t : List WEvent) :
    (runW st (e :: t)).2 = (step st e).2 ++ (runW (step st e).1 t).2 := by
  simp [runW]

theorem runW_nonterm_count (name : String) (evts : List WEvent) :
    ∀ st : WatcherState, (∀ e ∈ evts, clearsNotif name e = false) →
    (name ∈ st.pendingNotifs →
      (runW st evts).2.countP (isNonTermNotif name) = 0) ∧
    (runW st evts).2.countP (isNonTermNotif name) ≤ 1 := by
  induction evts with
  | nil =>
      intro st _
      exact ⟨fun _ => rfl, by simp [runW]⟩
  | cons e t ih =>
      intro st hcl
      have hcle : clearsNotif name e = false := hcl e (List.mem_cons_self _ _)
      have hclt : ∀ e' ∈ t, clearsNotif name e' = false :=
        fun e' he' => hcl e' (List.mem_cons_of_mem _ he')
      have hstep := step_nonterm st e name hcle
      have hih := ih (step st e).1 hclt
      rw [runW_out_cons, List.countP_append]
      constructor
      · intro hm
        obtain ⟨h1, h2⟩ := hstep.1 hm
        rw [h1, hih.1 h2]
      · by_cases hm : name ∈ st.pendingNotifs
        · obtain ⟨h1, h2⟩ := hstep.1 hm
          rw [h1, hih.1 h2]
          omega
        · rcases hstep.2 hm with ⟨h1, _⟩ | ⟨h1, h2⟩
          · rw [h1]
            simpa using hih.2
          · rw [h1, hih.1 h2]

theorem runW_term_count (name : String) (evts : List WEvent) :
    ∀ st : WatcherState,
    (runW st evts).2.countP (isTermNotif name) =
      evts.countP (isTermResponse name) := by
  induction evts with
  | nil =>
      intro st
      simp [runW]
  | cons e t ih =>
      intro st
      rw [runW_out_cons, List.countP_append, step_termNotif_count,
        List.countP_cons, ih]
      omega

/-- C2 (amended): the `pendingNotifications` dedup set is keyed by
package name alone and shared across all three non-terminal statuses:
in any deliverable run in which no event clears the name's entry (no
terminal poll response and no removal for a key with that name), at most
one non-terminal notification is shown for that name in total — in
particular a different non-terminal status reached after a status change
is NOT notified again (see the counterexample); and the number of
terminal notifications for a name equals the number of terminal-status
responses processed for it (terminal verdicts bypass the dedup set). -/
theorem notification_dedup (name : String) (evts : List WEvent) :
    ((∀ e ∈ evts, clearsNotif name e = false) →
      (runW initWatcher evts).2.countP (isNonTermNotif name) ≤ 1) ∧
    (runW initWatcher evts).2.countP (isTermNotif name) =
      evts.countP (isTermResponse name) :=
  ⟨fun hcl => (runW_nonterm_count name evts initWatcher hcl).2,
   runW_term_count name evts initWatcher⟩

/-- Witness for `notification_dedup`: across five pending poll ticks only
the first pending response is surfaced. -/
theorem notification_dedup_witness :
    (runW initWatcher
      [WEvent.newDep ⟨"p", "lodash"⟩ none
        (some ⟨RespStatus.pending, "m", none⟩) 0,
       WEvent.pollTick ⟨"p", "lodash"⟩
        (some ⟨RespStatus.pending, "m", none⟩) 0,
       WEvent.pollTick ⟨"p", "lodash"⟩
        (some ⟨RespStatus.pending, "m", none⟩) 0]).2.countP
      (isNonTermNotif "lodash") ≤ 1 :=
  (notification_dedup "lodash" _).1 (by decide)

/-- Counterexample to C2 as stated: a `pending` response followed by a
first-time `scanning` response (a different non-terminal status, reached
after the status changed) produces no scanning notification, because the
dedup set is keyed by package name only, not by (name, status). -/
theorem notification_dedup_cex :
    validSeqB initWatcher
      [WEvent.newDep ⟨"p", "lodash"⟩ none
        (some ⟨RespStatus.pending, "m", none⟩) 0,
       WEvent.pollTick ⟨"p", "lodash"⟩
        (some ⟨RespStatus.scanning, "m", none⟩) 0] = true ∧
    (runW initWatcher
      [WEvent.newDep ⟨"p", "lodash"⟩ none
        (some ⟨RespStatus.pending, "m", none⟩) 0,
       WEvent.pollTick ⟨"p", "lodash"⟩
        (some ⟨RespStatus.scanning, "m", none⟩) 0]).2 =
      [OutEvent.apiRequest ⟨"p", "lodash"⟩, OutEvent.notifPending "lodash",
       OutEvent.apiCheck ⟨"p", "lodash"⟩] ∧
    OutEvent.notifScanning "lodash" ∉
      (runW initWatcher
        [WEvent.newDep ⟨"p", "lodash"⟩ none
          (some ⟨RespStatus.pending, "m", none⟩) 0,
         WEvent.pollTick ⟨"p", "lodash"⟩
          (some ⟨RespStatus.scanning, "m", none⟩) 0]).2 := by
  decide

/-- The event is `handleNewDependency` for key `k`. -/
def isNewDepFor (k : DepKey) : WEvent → Bool
  | .newDep k' _ _ _ => decide (k' = k)
  | _ => false

/-- The event is a `checkDependencyStatus` tick for key `k`. -/
def isPollTickFor (k : DepKey) : WEvent → Bool
  | .pollTick k' _ _ => decide (k' = k)
  | _ => false

theorem startPolling_timers_mem (st : WatcherState) (k : DepKey)
    (k'' : DepKey) (id : Nat)
    (h : (k'', id) ∈ (startPolling st k).timers) :
    (k'' = k ∧ id = st.nextId) ∨ (k'', id) ∈ st.timers := by
  unfold startPolling at h
  cases hmk : kget st.intervalMap k with
  | none =>
      rw [hmk] at h
      rcases List.mem_cons.mp h with heq | hm
      · exact Or.inl ⟨congrArg Prod.fst heq, congrArg Prod.snd heq⟩
      · exact Or.inr hm
  | some oldId =>
      rw [hmk] at h
      rcases List.mem_cons.mp h with heq | hm
      · exact Or.inl ⟨congrArg Prod.fst heq, congrArg Prod.snd heq⟩
      · exact Or.inr (List.mem_of_mem_eraseP hm)

theorem stopPolling_timers_mem (st : WatcherState) (k : DepKey)
    (k'' : DepKey) (id : Nat)
    (h : (k'', id) ∈ (stopPolling st k).timers) : (k'', id) ∈ st.timers := by
  unfold stopPolling at h
  cases hmk : kget st.intervalMap k with
  | none =>
      rw [hmk] at h
      exact h
  | some oldId =>
      rw [hmk] at h
      exact List.mem_of_mem_eraseP h

theorem step_noTimer (st : WatcherState) (e : WEvent) (k : DepKey)
    (hno : ∀ id, (k, id) ∉ st.timers) (hnd : isNewDepFor k e = false) :
    ∀ id, (k, id) ∉ (step st e).1.timers := by
  intro id hmem
  cases e with
  | newDep k' version res line =>
      have hk' : k' ≠ k := by
        simpa [isNewDepFor] using hnd
      cases res with
      | none =>
          rw [step_newDep_none] at hmem
          exact hno id hmem
      | some r =>
          by_cases hnt : r.status.nonTerminal = true
          · rw [step_newDep_some_nt st k' version r line hnt] at hmem
            rcases startPolling_timers_mem _ _ _ _ hmem with ⟨h1, _⟩ | hm
            · exact hk' h1.symm
            · exact hno id hm
          · have hnt' : r.status.nonTerminal = false := by simpa using hnt
            rw [step_newDep_some_term st k' version r line hnt'] at hmem
            exact hno id hmem
  | pollTick k' res line =>
      cases res with
      | none =>
          rw [step_pollTick_none] at hmem
          exact hno id hmem
      | some r =>
          cases hket : kget st.tracked k' with
          | some ti =>
              by_cases hnt : r.status.nonTerminal = true
              · rw [step_pollTick_some_nt st k' r line ti hket hnt] at hmem
                exact hno id hmem
              · have hnt' : r.status.nonTerminal = false := by simpa using hnt
                rw [step_pollTick_some_term st k' r line ti hket hnt'] at hmem
                have hmm := stopPolling_timers_mem
                  ((handleDependencyResponse (tickState st k' ti.version r)
                    k' ti.version r line).1) k' k id hmem
                exact hno id hmm
          | none =>
              by_cases hnt : r.status.nonTerminal = true
              · rw [step_pollTick_some_none_nt st k' r line hket hnt] at hmem
                exact hno id hmem
              · have hnt' : r.status.nonTerminal = false := by simpa using hnt
                rw [step_pollTick_some_none_term st k' r line hket hnt']
                  at hmem
                have hmm := stopPolling_timers_mem
                  ((handleDependencyResponse st k' none r line).1) k' k id hmem
                exact hno id hmm
  | removed k' updateOk =>
      rw [step_removed_eq] at hmem
      exact hno id (stopPolling_timers_mem _ _ _ _ hmem)
  | fileDelete path =>
      rw [step_fileDelete_eq] at hmem
      exact hno id hmem

theorem noPollTick_run (k : DepKey) (evts : List WEvent) :
    ∀ st : WatcherState, (∀ id, (k, id) ∉ st.timers) →
    validSeqB st evts = true →
    (∀ e ∈ evts, isNewDepFor k e = false) →
    ∀ e ∈ evts, isPollTickFor k e = false := by
  induction evts with
  | nil =>
      intro st _ _ _ e he
      exact absurd he (List.not_mem_nil e)
  | cons e t ih =>
      intro st hno hv hnd e' he'
      have hv1 : validWEventB st e = true ∧ validSeqB (step st e).1 t = true := by
        simpa [validSeqB, Bool.and_eq_true] using hv
      rcases List.mem_cons.mp he' with heq | hm
      · subst heq
        by_contra hc
        have hc' : isPollTickFor k e' = true := by
          cases hb : isPollTickFor k e'
          · exact absurd hb hc
          · rfl
        cases e' with
        | pollTick k' res line =>
            have hkk : k' = k := by
              simpa [isPollTickFor] using hc'
            subst hkk
            have hany := hv1.1
            simp only [validWEventB] at hany
            obtain ⟨t0, ht0in, hpt0⟩ := List.any_eq_true.mp hany
            have hk0 : t0.1 = k' := by simpa using hpt0
            have : (t0.1, t0.2) ∈ st.timers := by
              cases t0
              exact ht0in
            rw [hk0] at this
            exact hno t0.2 this
        | newDep k' version res line => exact absurd hc' (by simp [isPollTickFor])
        | removed k' updateOk => exact absurd hc' (by simp [isPollTickFor])
        | fileDelete path => exact absurd hc' (by simp [isPollTickFor])
      · exact ih (step st e).1
          (step_noTimer st e k hno (hnd e (List.mem_cons_self _ _)))
          hv1.2 (fun e'' he'' => hnd e'' (List.mem_cons_of_mem _ he''))
          e' hm

theorem removeDiagnostic_count (st : DiagState) (path name : String)
    (h : diagUnique st) :
    ∀ l, alistGet (removeDiagnostic st path name) path = some l →
      l.countP (fun d => d.name == name) = 0 := by
  intro l hl
  rw [removeDiagnostic] at hl
  cases hcase : alistGet st path with
  | none =>
      rw [hcase] at hl
      simp only [] at hl
      rw [hcase] at hl
      exact Option.noConfusion hl
  | some cur =>
      rw [hcase] at hl
      simp only [] at hl
      by_cases hany : cur.any (fun x => x.name == name)
      · rw [if_pos hany, alistGet_alistSet_eq] at hl
        obtain rfl : cur.eraseP (fun x => x.name == name) = l :=
          Option.some.inj hl
        exact countP_le_one_eraseP _ cur (h path cur hcase name)
      · rw [if_neg hany] at hl
        rw [hcase] at hl
        obtain rfl : cur = l := Option.some.inj hl
        rw [List.countP_eq_zero]
        intro a ha
        have := List.any_eq_false.mp (Bool.not_eq_true _ ▸ hany) a ha
        simpa using this

theorem alistGet_clearFile_self (st : DiagState) (path : String) :
    alistGet (clearFile st path) path = none := by
  have hf : (clearFile st path).find? (fun p => p.1 == path) = none := by
    rw [List.find?_eq_none]
    intro x hx
    have hx2 := (List.mem_filter.mp hx).2
    simpa using hx2
  simp [alistGet, hf]

theorem alistGet_clearFile_ne (st : DiagState) (path p' : String)
    (hne : p' ≠ path) :
    alistGet (clearFile st path) p' = alistGet st p' := by
  induction st with
  | nil => rfl
  | cons p t ih =>
      simp only [clearFile, List.filter_cons] at ih ⊢
      by_cases hp : (p.1 == path) = true
      · have hpe : p.1 = path := by simpa using hp
        have h1 : (p.1 == p') = false := by simp [hpe, Ne.symm hne]
        rw [if_neg (by simp [hp]), ih]
        simp only [alistGet, List.find?]
        simp [h1]
      · rw [if_pos (by simp [Bool.not_eq_true _ ▸ hp])]
        simp only [alistGet, List.find?] at ih ⊢
        cases h1 : (p.1 == p') with
        | true => rfl
        | false => exact ih

theorem diagUnique_clearFile (st : DiagState) (path : String)
    (h : diagUnique st) : diagUnique (clearFile st path) := by
  intro p' l hget n
  by_cases hp : p' = path
  · rw [hp, alistGet_clearFile_self] at hget
    exact Option.noConfusion hget
  · rw [alistGet_clearFile_ne st path p' hp] at hget
    exact h p' l hget n

theorem initWatcher_diagUnique : diagUnique initWatcher.diags := by
  intro path l hget n
  exact Option.noConfusion hget

theorem step_diagUnique (st : WatcherState) (e : WEvent)
    (h : diagUnique st.diags) : diagUnique (step st e).1.diags := by
  cases e with
  | newDep k version res line =>
      cases res with
      | none =>
          rw [step_newDep_none]
          exact h
      | some r =>
          by_cases hnt : r.status.nonTerminal = true
          · rw [step_newDep_some_nt st k version r line hnt]
            show diagUnique (startPolling
              (handleDependencyResponse (newDepState st k version r)
                k version r line).1 k).diags
            rw [(startPolling_fields _ _).2.1, hdr_state]
            exact diagUnique_add _ _ _ h
          · rw [step_newDep_some_term st k version r line
              (Bool.not_eq_true _ ▸ hnt)]
            show diagUnique (handleDependencyResponse
              (newDepState st k version r) k version r line).1.diags
            rw [hdr_state]
            exact diagUnique_add _ _ _ h
  | pollTick k res line =>
      cases res with
      | none => exact h
      | some r =>
          cases hket : kget st.tracked k with
          | some ti =>
              by_cases hnt : r.status.nonTerminal = true
              · rw [step_pollTick_some_nt st k r line ti hket hnt]
                show diagUnique (handleDependencyResponse
                  (tickState st k ti.version r) k ti.version r line).1.diags
                rw [hdr_state]
                exact diagUnique_add _ _ _ h
              · rw [step_pollTick_some_term st k r line ti hket
                  (Bool.not_eq_true _ ▸ hnt)]
                show diagUnique (stopPolling (handleDependencyResponse
                  (tickState st k ti.version r)
                  k ti.version r line).1 k).diags
                rw [(stopPolling_fields _ _).2.1, hdr_state]
                exact diagUnique_add _ _ _ h
          | none =>
              by_cases hnt : r.status.nonTerminal = true
              · rw [step_pollTick_some_none_nt st k r line hket hnt]
                show diagUnique (handleDependencyResponse
                  st k none r line).1.diags
                rw [hdr_state]
                exact diagUnique_add _ _ _ h
              · rw [step_pollTick_some_none_term st k r line hket
                  (Bool.not_eq_true _ ▸ hnt)]
                show diagUnique (stopPolling (handleDependencyResponse
                  st k none r line).1 k).diags
                rw [(stopPolling_fields _ _).2.1, hdr_state]
                exact diagUnique_add _ _ _ h
  | removed k updateOk =>
      rw [step_removed_eq]
      show diagUnique
        (removeDiagnostic (stopPolling st k).diags k.path k.name)
      rw [(stopPolling_fields _ _).2.1]
      exact diagUnique_remove _ _ _ h
  | fileDelete path =>
      rw [step_fileDelete_eq]
      exact diagUnique_clearFile _ _ h

theorem runW_diagUnique (evts : List WEvent) :
    ∀ st : WatcherState, diagUnique st.diags →
      diagUnique (runW st evts).1.diags := by
  induction evts with
  | nil =>
      intro st h
      simpa [runW] using h
  | cons e t ih =>
      intro st h
      have h1 := step_diagUnique st e h
      have h2 := ih (step st e).1 h1
      simpa [runW] using h2

/-- C7 (amended): processing the removal of a tracked dependency cancels
its poll task (no live timer and no stored interval for its key remain,
and no `check` tick for that key can occur in any deliverable
continuation that does not re-add the key), removes its diagnostic
entry, and sends `update` with `action = "removed"`; the
removal-confirmation notification is surfaced exactly when the last
known status was `denied` AND the `update` call succeeded — a failing
best-effort `update` suppresses it (see the counterexample). -/
theorem removal_spec (evts : List WEvent) (k : DepKey) (updateOk : Bool)
    (_hv : validSeqB initWatcher evts = true) :
    (∀ id, (k, id) ∉
      (step (runW initWatcher evts).1 (.removed k updateOk)).1.timers) ∧
    kget (step (runW initWatcher evts).1
      (.removed k updateOk)).1.intervalMap k = none ∧
    (∀ evts', validSeqB (step (runW initWatcher evts).1
        (.removed k updateOk)).1 evts' = true →
      (∀ e ∈ evts', isNewDepFor k e = false) →
      ∀ e ∈ evts', isPollTickFor k e = false) ∧
    (∀ l, alistGet (step (runW initWatcher evts).1
        (.removed k updateOk)).1.diags k.path = some l →
      l.countP (fun d => d.name == k.name) = 0) ∧
    OutEvent.apiUpdateRemoved k ∈
      (step (runW initWatcher evts).1 (.removed k updateOk)).2 ∧
    (OutEvent.notifRemovalConfirmed k.name ∈
        (step (runW initWatcher evts).1 (.removed k updateOk)).2 ↔
      (updateOk = true ∧
        (kget (runW initWatcher evts).1.tracked k).map TrackedInfo.status =
          some ApprovalStatus.denied)) := by
  have htinv : TimerInv (runW initWatcher evts).1 :=
    runW_tinv evts initWatcher initWatcher_TimerInv
  have hdgU : diagUnique (runW initWatcher evts).1.diags :=
    runW_diagUnique evts initWatcher initWatcher_diagUnique
  obtain ⟨_, hmapnone, hnot⟩ :=
    stopPolling_tinv (runW initWatcher evts).1 k htinv
  have htimers : (step (runW initWatcher evts).1
      (.removed k updateOk)).1.timers =
      (stopPolling (runW initWatcher evts).1 k).timers := by
    rw [step_removed_eq]
  have hmap : (step (runW initWatcher evts).1
      (.removed k updateOk)).1.intervalMap =
      (stopPolling (runW initWatcher evts).1 k).intervalMap := by
    rw [step_removed_eq]
  have hdiags : (step (runW initWatcher evts).1
      (.removed k updateOk)).1.diags =
      removeDiagnostic (runW initWatcher evts).1.diags k.path k.name := by
    rw [step_removed_eq]
    show removeDiagnostic
      (stopPolling (runW initWatcher evts).1 k).diags k.path k.name = _
    rw [(stopPolling_fields _ _).2.1]
  refine ⟨?_, ?_, ?_, ?_, ?_, ?_⟩
  · intro id
    rw [htimers]
    exact hnot id
  · rw [hmap]
    exact hmapnone
  · intro evts' hv' hnd
    apply noPollTick_run k evts' _ _ hv' hnd
    intro id
    rw [htimers]
    exact hnot id
  · rw [hdiags]
    exact removeDiagnostic_count _ _ _ hdgU
  · rw [step_removed_eq]
    exact List.mem_cons_self _ _
  · rw [step_removed_eq]
    cases updateOk with
    | false =>
        simp
    | true =>
        by_cases hd : (kget (runW initWatcher evts).1.tracked k).map
            TrackedInfo.status = some ApprovalStatus.denied
        · rw [if_pos rfl, if_pos hd]
          simp [hd]
        · rw [if_pos rfl, if_neg hd]
          simp [hd]

/-- Witness for `removal_spec`: removing a tracked denied dependency
sends the `update(action="removed")` call. -/
theorem removal_spec_witness :
    OutEvent.apiUpdateRemoved ⟨"p", "evil-pkg"⟩ ∈
      (step (runW initWatcher
        [WEvent.newDep ⟨"p", "evil-pkg"⟩ (some "1.0.0")
          (some ⟨RespStatus.denied, "blocked", none⟩) 0]).1
        (.removed ⟨"p", "evil-pkg"⟩ true)).2 :=
  (removal_spec [WEvent.newDep ⟨"p", "evil-pkg"⟩ (some "1.0.0")
    (some ⟨RespStatus.denied, "blocked", none⟩) 0]
    ⟨"p", "evil-pkg"⟩ true (by decide)).2.2.2.2.1

/-- Counterexample to C7 as stated: a removal of a dependency whose last
known status is `denied` surfaces NO removal-confirmation notification
when the best-effort `update` call throws, because the notification call
sits after `await client.update(...)` inside the same `try`. -/
theorem removal_spec_cex :
    (kget (runW initWatcher
      [WEvent.newDep ⟨"p", "evil-pkg"⟩ (some "1.0.0")
        (some ⟨RespStatus.denied, "blocked", none⟩) 0]).1.tracked
      ⟨"p", "evil-pkg"⟩).map TrackedInfo.status =
      some ApprovalStatus.denied ∧
    validSeqB initWatcher
      [WEvent.newDep ⟨"p", "evil-pkg"⟩ (some "1.0.0")
        (some ⟨RespStatus.denied, "blocked", none⟩) 0,
       WEvent.removed ⟨"p", "evil-pkg"⟩ false] = true ∧
    OutEvent.notifRemovalConfirmed "evil-pkg" ∉
      (runW initWatcher
        [WEvent.newDep ⟨"p", "evil-pkg"⟩ (some "1.0.0")
          (some ⟨RespStatus.denied, "blocked", none⟩) 0,
         WEvent.removed ⟨"p", "evil-pkg"⟩ false]).2 := by
  decide

/-- Counterexample to C1 as stated, in both directions.  (1) After the
error branch of the initial submission (`client.request` threw), the
dependency is cached with its initial non-terminal status `pending`
(set by `BaseDependencyParser.createDependencyInfo`) yet no poll task
exists.  (2) After a manifest file deletion, the file's poll task is
still live although the dependency is no longer tracked —
`handleFileDelete` deletes the `statusCache` entry but never clears the
path's `pollingIntervals`.  So "active poll task iff status ∈
{pending, scanning, not_found}" fails at both concrete runs. -/
theorem watcher_poll_invariant_cex :
    (validSeqB initWatcher
      [WEvent.newDep ⟨"build.gradle", "lodash"⟩ (some "4.17.21") none 0]
      = true ∧
    kget (runW initWatcher
      [WEvent.newDep ⟨"build.gradle", "lodash"⟩ (some "4.17.21") none 0]).1.tracked
      ⟨"build.gradle", "lodash"⟩ =
      some ⟨some "4.17.21", ApprovalStatus.pending⟩ ∧
    ApprovalStatus.pending.isPolling = true ∧
    (runW initWatcher
      [WEvent.newDep ⟨"build.gradle", "lodash"⟩ (some "4.17.21") none 0]).1.timers
      = []) ∧
    (validSeqB initWatcher
      [WEvent.newDep ⟨"build.gradle", "lodash"⟩ (some "4.17.21")
        (some ⟨RespStatus.pending, "queued", none⟩) 0,
       WEvent.fileDelete "build.gradle"] = true ∧
    (runW initWatcher
      [WEvent.newDep ⟨"build.gradle", "lodash"⟩ (some "4.17.21")
        (some ⟨RespStatus.pending, "queued", none⟩) 0,
       WEvent.fileDelete "build.gradle"]).1.timers =
      [(⟨"build.gradle", "lodash"⟩, 0)] ∧
    kget (runW initWatcher
      [WEvent.newDep ⟨"build.gradle", "lodash"⟩ (some "4.17.21")
        (some ⟨RespStatus.pending, "queued", none⟩) 0,
       WEvent.fileDelete "build.gradle"]).1.tracked
      ⟨"build.gradle", "lodash"⟩ = none) := by
  decide

/-! ### NpmDependencyParser and the diff boundary
(src/parsers/NpmDependencyParser.ts, src/watchers/gradleWatcher.ts
lines 71-83)

`JSON.parse` either throws (malformed content — the catch branch of
`parseAllDependencies` returns `[]`) or yields an object whose
`dependencies` / `devDependencies` maps are spread together
(`{...deps, ...devDeps}`: keys of the first in order with values
overridden by the second, then new keys of the second).  The removal
pass of `handleFileChange` reports as removed every cached dependency
name absent from the freshly parsed name set. -/

/-- A manifest revision as seen through `JSON.parse`. -/
inductive NpmContent where
  | malformed
  | wellFormed (dependencies devDependencies : List (String × String))

/-- The object spread `{...a, ...b}` on two parsed key-value maps. -/
def mergeSpread (a b : List (String × String)) :
    List (String × String) :=
  a.map (fun p => (p.1, (alistGet b p.1).getD p.2)) ++
    b.filter (fun p => (alistGet a p.1).isNone)

/-- `NpmDependencyParser.parseAllDependencies` (lines 59-77): malformed
content is caught and yields `[]`; otherwise every entry of the spread
becomes a `DependencyInfo` with initial status `pending`
(`BaseDependencyParser.createDependencyInfo`). -/
def npmParseAllDependencies : NpmContent → List DependencyInfo
  | .malformed => []
  | .wellFormed deps devDeps =>
      (mergeSpread deps devDeps).map
        (fun p => ⟨p.1, "npm", p.2, ApprovalStatus.pending⟩)

/-- The removal pass of `handleFileChange`: cached names absent from the
current revision's parsed name set are reported as removed. -/
def removedNames (trackedNames : List String) (content : NpmContent) :
    List String :=
  let currentDepNames :=
    (npmParseAllDependencies content).map (fun d => d.packageName)
  trackedNames.filter (fun n => !(currentDepNames.contains n))

/-- C6 (amended): a malformed manifest revision does not throw across the
diff boundary — the parse failure yields the empty dependency set — but
that empty set is treated as a genuinely empty manifest, so every
dependency tracked for the manifest IS reported as removed by the
removal pass (the claim's "prevents spurious removals" fails; see the
counterexample). -/
theorem malformed_manifest_behavior :
    npmParseAllDependencies .malformed = [] ∧
    ∀ trackedNames : List String,
      removedNames trackedNames .malformed = trackedNames := by
  refine ⟨rfl, ?_⟩
  intro trackedNames
  simp [removedNames, npmParseAllDependencies]

/-- Counterexample to C6 as stated: with `lodash` tracked, a malformed
write makes the removal pass report `lodash` as removed — a spurious
removal. -/
theorem malformed_manifest_cex :
    npmParseAllDependencies .malformed = [] ∧
    removedNames ["lodash"] .malformed = ["lodash"] ∧
    ["lodash"] ≠ ([] : List String) := by
  refine ⟨rfl, rfl, ?_⟩
  decide

/-! ### BootstrapService and the activation guard
(src/services/bootstrap.ts, src/extension.ts)

`workspaceState` holds the `repogate.bootstrapCompleted` array of
workspace ids.  `bootstrapQueue` enumerates manifest files, groups the
parsed packages by ecosystem (a JS `Map`, insertion order), sends one
`/queue` call per non-empty group, and marks the workspace completed on
success; any throwing `queue` call aborts the loop, leaves the flag
unset and returns `false`.  `activate` runs `bootstrapQueue` only when
`isBootstrapCompleted()` is false.  A file's parsed dependency list is
abstracted as data (`deps`); whether each ecosystem's `queue` call
succeeds is the `queueOk` oracle. -/

/-- The persisted `repogate.bootstrapCompleted` array. -/
structure BootstrapState where
  completed : List String
deriving DecidableEq, Repr

/-- `isBootstrapCompleted()`. -/
def isBootstrapCompleted (ws : String) (st : BootstrapState) : Bool :=
  decide (ws ∈ st.completed)

/-- `markBootstrapCompleted()`: push the id if absent. -/
def markBootstrapCompleted (ws : String) (st : BootstrapState) :
    BootstrapState :=
  if ws ∈ st.completed then st else ⟨st.completed ++ [ws]⟩

/-- `resetBootstrap()`: splice the id out. -/
def resetBootstrap (ws : String) (st : BootstrapState) : BootstrapState :=
  ⟨st.completed.erase ws⟩

/-- A manifest file found by `findDependencyFiles`, with the outcome of
`parser.parseAllDependencies` on its content ([] also covers parse
failures, which are caught per file). -/
structure BFile where
  fileName : String
  path : String
  deps : List (String × String)
deriving DecidableEq, Repr

/-- `findParser` / `getEcosystem`: both dispatch on the base file name
(`GradleDependencyParser.supports` modelled from the watcher's glob
`build.gradle`/`build.gradle.kts`, its source file not being in the
repository snapshot). -/
def findParserEco (fileName : String) : Option String :=
  if fileName = "package.json" then some "npm"
  else if fileName = "pom.xml" then some "maven"
  else if fileName = "build.gradle" ∨ fileName = "build.gradle.kts" then
    some "gradle"
  else none

/-- One entry of a `/queue` payload's `packages` array. -/
structure BPkg where
  name : String
  version : String
  path : String
deriving DecidableEq, Repr

/-- `ecosystemPackages.get(eco).push(...pkgs)`, creating the group at the
end on first use (JS Map insertion order). -/
def appendGroup : List (String × List BPkg) → String → List BPkg →
    List (String × List BPkg)
  | [], eco, pkgs => [(eco, pkgs)]
  | (e, l) :: t, eco, pkgs =>
      if e = eco then (e, l ++ pkgs) :: t
      else (e, l) :: appendGroup t eco pkgs

/-- The grouping loop of `bootstrapQueue` (lines 452-482). -/
def buildGroups (files : List BFile) : List (String × List BPkg) :=
  files.foldl
    (fun acc f =>
      match findParserEco f.fileName with
      | none => acc
      | some eco =>
          appendGroup acc eco
            (f.deps.map (fun d => ⟨d.1, d.2, f.path⟩)))
    []

/-- The queue loop of `bootstrapQueue` (lines 485-502): skip empty
groups; a throwing `client.queue` aborts.  Returns the ecosystems whose
`queue` call was issued, and whether the loop completed. -/
def queueGroups : List (String × List BPkg) → (String → Bool) →
    List String × Bool
  | [], _ => ([], true)
  | (eco, pkgs) :: t, queueOk =>
      if pkgs.isEmpty then queueGroups t queueOk
      else if queueOk eco then
        ((eco :: (queueGroups t queueOk).1), (queueGroups t queueOk).2)
      else ([eco], false)

/-- `bootstrapQueue` (lines 430-519): no files → mark completed, return
true with zero queue calls; otherwise run the loops, marking completed
only when no queue call threw. -/
def bootstrapQueue (ws : String) (st : BootstrapState)
    (files : List BFile) (queueOk : String → Bool) :
    BootstrapState × List String × Bool :=
  if files.isEmpty then (markBootstrapCompleted ws st, [], true)
  else
    let qr := queueGroups (buildGroups files) queueOk
    if qr.2 then (markBootstrapCompleted ws st, qr.1, true)
    else (st, qr.1, false)

/-- The bootstrap guard in `activate` (src/extension.ts lines 156-168):
run `bootstrapQueue` only when the completed flag is unset. -/
def activateBootstrap (ws : String) (st : BootstrapState)
    (files : List BFile) (queueOk : String → Bool) :
    BootstrapState × List String × Bool :=
  if isBootstrapCompleted ws st then (st, [], true)
  else bootstrapQueue ws st files queueOk

theorem isBootstrapCompleted_mark (ws : String) (st : BootstrapState) :
    isBootstrapCompleted ws (markBootstrapCompleted ws st) = true := by
  unfold isBootstrapCompleted markBootstrapCompleted
  by_cases h : ws ∈ st.completed
  · simp [h]
  · simp [h]

theorem bootstrapQueue_success_marks (ws : String) (st : BootstrapState)
    (files : List BFile) (queueOk : String → Bool)
    (h : (bootstrapQueue ws st files queueOk).2.2 = true) :
    (bootstrapQueue ws st files queueOk).1 = markBootstrapCompleted ws st := by
  unfold bootstrapQueue at h ⊢
  by_cases hf : files.isEmpty
  · rw [if_pos hf] at h ⊢
  · rw [if_neg hf] at h ⊢
    by_cases hq : (queueGroups (buildGroups files) queueOk).2 = true
    · simp only [hq, if_true]
    · rw [if_neg hq] at h
      exact absurd h (by simp)

/-- C3: a second call of the guarded bootstrap entry point after a
successful first call issues zero queue calls: a successful run sets the
workspace's completed flag, and the guard skips `bootstrapQueue`
entirely when the flag is set. -/
theorem bootstrap_runs_once (ws : String) (st : BootstrapState)
    (files files' : List BFile) (queueOk queueOk' : String → Bool)
    (h : (activateBootstrap ws st files queueOk).2.2 = true) :
    isBootstrapCompleted ws (activateBootstrap ws st files queueOk).1
      = true ∧
    (activateBootstrap ws (activateBootstrap ws st files queueOk).1
      files' queueOk').2.1 = [] ∧
    (activateBootstrap ws (activateBootstrap ws st files queueOk).1
      files' queueOk').1 = (activateBootstrap ws st files queueOk).1 := by
  by_cases hc : isBootstrapCompleted ws st = true
  · have h1 : activateBootstrap ws st files queueOk = (st, [], true) := by
      unfold activateBootstrap
      rw [if_pos hc]
    rw [h1]
    refine ⟨hc, ?_, ?_⟩ <;>
      · unfold activateBootstrap
        rw [if_pos hc]
  · have h1 : activateBootstrap ws st files queueOk =
        bootstrapQueue ws st files queueOk := by
      unfold activateBootstrap
      rw [if_neg hc]
    rw [h1] at h ⊢
    have h2 := bootstrapQueue_success_marks ws st files queueOk h
    rw [h2]
    have h3 := isBootstrapCompleted_mark ws st
    refine ⟨h3, ?_, ?_⟩ <;>
      · unfold activateBootstrap
        rw [if_pos h3]

/-- Witness for `bootstrap_runs_once`: a fresh workspace with no
manifest files bootstraps successfully; the second activation issues
zero queue calls. -/
theorem bootstrap_runs_once_witness :
    (activateBootstrap "ws" (activateBootstrap "ws" ⟨[]⟩ []
      (fun _ => true)).1 [] (fun _ => true)).2.1 = [] :=
  (bootstrap_runs_once "ws" ⟨[]⟩ [] [] (fun _ => true) (fun _ => true)
    (by decide)).2.1

theorem appendGroup_all_empty (acc : List (String × List BPkg))
    (eco : String) (hacc : ∀ g ∈ acc, g.2 = []) :
    ∀ g ∈ appendGroup acc eco [], g.2 = [] := by
  induction acc with
  | nil =>
      intro g hg
      simp [appendGroup] at hg
      rw [hg]
  | cons p t ih =>
      intro g hg
      obtain ⟨e, l⟩ := p
      rw [appendGroup] at hg
      by_cases he : e = eco
      · rw [if_pos he] at hg
        rcases List.mem_cons.mp hg with heq | hm
        · rw [heq]
          have : l = [] := hacc (e, l) (List.mem_cons_self _ _)
          simp [this]
        · exact hacc g (List.mem_cons_of_mem _ hm)
      · rw [if_neg he] at hg
        rcases List.mem_cons.mp hg with heq | hm
        · rw [heq]
          exact hacc (e, l) (List.mem_cons_self _ _)
        · exact ih (fun g' hg' => hacc g' (List.mem_cons_of_mem _ hg')) g hm

theorem buildGroups_aux_all_empty (files : List BFile) :
    ∀ acc : List (String × List BPkg),
    (∀ f ∈ files, findParserEco f.fileName = none ∨ f.deps = []) →
    (∀ g ∈ acc, g.2 = []) →
    ∀ g ∈ files.foldl
      (fun acc f =>
        match findParserEco f.fileName with
        | none => acc
        | some eco =>
            appendGroup acc eco
              (f.deps.map (fun d => ⟨d.1, d.2, f.path⟩)))
      acc, g.2 = [] := by
  induction files with
  | nil =>
      intro acc _ hacc g hg
      exact hacc g hg
  | cons f t ih =>
      intro acc h hacc g hg
      rw [List.foldl_cons] at hg
      have hf := h f (List.mem_cons_self _ _)
      have ht : ∀ f' ∈ t, findParserEco f'.fileName = none ∨ f'.deps = [] :=
        fun f' hf' => h f' (List.mem_cons_of_mem _ hf')
      cases hp : findParserEco f.fileName with
      | none =>
          rw [hp] at hg
          exact ih acc ht hacc g hg
      | some eco =>
          rw [hp] at hg
          have hdeps : f.deps = [] := by
            rcases hf with hno | hd
            · rw [hp] at hno
              exact Option.noConfusion hno
            · exact hd
          rw [hdeps] at hg
          exact ih _ ht (appendGroup_all_empty acc eco hacc) g hg

theorem buildGroups_all_empty (files : List BFile)
    (h : ∀ f ∈ files, findParserEco f.fileName = none ∨ f.deps = []) :
    ∀ g ∈ buildGroups files, g.2 = [] :=
  buildGroups_aux_all_empty files [] h (by simp)

theorem queueGroups_all_empty (groups : List (String × List BPkg))
    (queueOk : String → Bool) (h : ∀ g ∈ groups, g.2 = []) :
    queueGroups groups queueOk = ([], true) := by
  induction groups with
  | nil => rfl
  | cons p t ih =>
      obtain ⟨eco, pkgs⟩ := p
      have hp : pkgs = [] := h (eco, pkgs) (List.mem_cons_self _ _)
      rw [queueGroups, hp]
      rw [if_pos (by rfl)]
      exact ih (fun g' hg' => h g' (List.mem_cons_of_mem _ hg'))

/-- C10: when every found manifest contributes an empty package list
(no manifest files at all, unsupported files, or empty/unparseable
manifests), `bootstrapQueue` issues zero queue calls, still marks the
workspace's bootstrap as completed, and returns true. -/
theorem bootstrap_empty_workspace (ws : String) (st : BootstrapState)
    (files : List BFile) (queueOk : String → Bool)
    (h : ∀ f ∈ files, findParserEco f.fileName = none ∨ f.deps = []) :
    bootstrapQueue ws st files queueOk =
      (markBootstrapCompleted ws st, [], true) ∧
    isBootstrapCompleted ws (markBootstrapCompleted ws st) = true := by
  refine ⟨?_, isBootstrapCompleted_mark ws st⟩
  unfold bootstrapQueue
  by_cases hf : files.isEmpty
  · rw [if_pos hf]
  · rw [if_neg hf]
    have hq := queueGroups_all_empty (buildGroups files) queueOk
      (buildGroups_all_empty files h)
    simp only [hq]
    rfl

/-- Witness for `bootstrap_empty_workspace`: a workspace with a single
empty package.json bootstraps to completed with zero queue calls. -/
theorem bootstrap_empty_workspace_witness :
    bootstrapQueue "ws" ⟨[]⟩
      [⟨"package.json", "package.json", []⟩] (fun _ => true) =
      (markBootstrapCompleted "ws" ⟨[]⟩, [], true) :=
  (bootstrap_empty_workspace "ws" ⟨[]⟩
    [⟨"package.json", "package.json", []⟩] (fun _ => true)
    (by decide)).1

end RepoGate
